import Mathlib

/-!
# Snowstorm `Directed` conflict-graph consensus: a shallow embedding

This file embeds the `Directed` snowstorm consensus engine
(`snow/consensus/snowstorm/directed.go`, given as `src/unnamed/part_001`)
into Lean and proves properties of the embedding.

Modelling conventions:

* Transaction ids and UTXO ids are `Nat` (Go uses 32-byte ids; only
  identity matters to the algorithm).
* Go's `ids.Set` is modelled as a duplicate-free `List Nat` with
  insertion-ordered iteration (`sAdd`, `sRemove`, `sUnion`).
* Go maps are association lists (`alGet`, `alSet`, `alErase`).
* Go stores `*directedTx` pointers: the map `dg.txs` maps an id to a
  pointer, and blockables (`directedAccepter`, `directedRejector`) alias
  the same object.  We model the heap explicitly: `DG.heap` holds the node
  object allocated for each tx id, and `DG.mapIds` is the key set of
  `dg.txs`.  A map lookup succeeds only for ids in `mapIds`; deleting from
  the map (`delete(dg.txs, k)`) removes the id from `mapIds` while the
  object stays on the heap, which is exactly Go's aliasing behaviour.
* A Go `nil`-pointer dereference (panic) is modelled as `Option.none`:
  a panicking execution produces no resulting state.
* The external `Tx` callbacks `Accept()`/`Reject()` may fail; a `Tx`
  carries `acceptErr`/`rejectErr` describing the collaborator's behaviour.
  On success the tx's status (kept in `DG.statuses`) becomes
  `accepted`/`rejected`; on failure the status is unchanged and the error
  is returned, as with the test collaborators.
* The `DecisionDispatcher` event sink is modelled as the append-only list
  `DG.events`.  Metrics and logging have no observable effect and are not
  modelled.
* The fields inherited from the embedded `common` struct
  (`preferences`, `virtuous`, `virtuousVoting`, `currentVote`,
  `pendingAccept`, `pendingReject`, `errs`) are not under `src/`.
  They are modelled from the spec: §4.3 "Initialize — sets parameters;
  allocates empty UTXO index and tx map; initial virtuous, preferred,
  virtuousVoting sets are empty", §5 "a single error accumulator surfaces
  the first failing event callback", and §4.2 for the dependency registry
  (see below).
* The dependency registry (`events.Blocker`) is not under `src/` either.
  Modelled from the spec §4.2: `Register` stores the blockable indexed by
  each outstanding dependency and lets it update (a blockable "becomes
  unblocked exactly once all dependencies are either fulfilled or
  abandoned", so a blockable registered with no outstanding dependencies
  updates immediately); `Fulfill id`/`Abandon id` pop the blockables
  stored under `id` and invoke their `Fulfill`/`Abandon` callbacks.
  One accepter/rejector exists per issued tx, so the registries store tx
  ids and the blockable state lives in `DG.accepters` / `DG.rejectors`.
* The accept/reject cascades recurse through the registries; recursion is
  bounded by an explicit `fuel` parameter, and running out of fuel yields
  `none` (again: no resulting state).
-/

set_option linter.unusedVariables false

namespace Snowstorm

/-- External decision status of a transaction (`choices.Status`). -/
inductive Status where
  | processing
  | accepted
  | rejected
deriving DecidableEq, Repr

/-- `Status.Decided()` — an accepted or rejected tx is decided. -/
def Status.decided : Status → Bool
  | .processing => false
  | _ => true

/-- A transaction as presented to the engine (`snowstorm.Tx`):
its id, consumed UTXO ids (`InputIDs`), dependency tx ids
(`Dependencies`), and the behaviour of the external `Accept`/`Reject`
callbacks (`some e` means the collaborator fails with error `e`). -/
structure Tx where
  id : Nat
  inputs : List Nat
  deps : List Nat
  acceptErr : Option Nat := none
  rejectErr : Option Nat := none
deriving DecidableEq, Repr

/-- A transaction is well-formed when its input and dependency id
collections are duplicate-free (in Go they are `ids.Set`s). -/
def WfTx (t : Tx) : Prop := t.inputs.Nodup ∧ t.deps.Nodup

/-- `ids.Set.Add`: insert preserving first-insertion order. -/
def sAdd (l : List Nat) (x : Nat) : List Nat := if x ∈ l then l else l ++ [x]

/-- `ids.Set.Remove`. -/
def sRemove (l : List Nat) (x : Nat) : List Nat := l.filter (fun y => y ≠ x)

/-- `ids.Set.Union`: add every element of `m` to `l`. -/
def sUnion (l m : List Nat) : List Nat := m.foldl sAdd l

/-- Association list lookup (a Go map read). -/
def alGet {α : Type} : List (Nat × α) → Nat → Option α
  | [], _ => none
  | p :: t, k => if p.1 = k then some p.2 else alGet t k

/-- Association list update-or-insert (a Go map write). -/
def alSet {α : Type} : List (Nat × α) → Nat → α → List (Nat × α)
  | [], k, v => [(k, v)]
  | p :: t, k, v => if p.1 = k then (k, v) :: t else p :: alSet t k v

/-- Association list deletion (Go `delete`). -/
def alErase {α : Type} (l : List (Nat × α)) (k : Nat) : List (Nat × α) :=
  l.filter (fun p => p.1 ≠ k)

/-- The conflict-graph node for one transaction (`directedTx`). -/
structure DNode where
  bias : Nat := 0
  confidence : Nat := 0
  lastVote : Nat := 0
  rogue : Bool := false
  pendingAccept : Bool := false
  accepted : Bool := false
  ins : List Nat := []
  outs : List Nat := []
  tx : Tx
deriving DecidableEq, Repr

/-- The snowball parameters the `Directed` engine reads
(`params.Alpha`, `params.BetaVirtuous`, `params.BetaRogue`). -/
structure Params where
  alpha : Nat
  betaVirtuous : Nat
  betaRogue : Nat
deriving DecidableEq, Repr

/-- State of a registered `directedAccepter`: its outstanding
dependency set and its `rejected` flag. -/
structure Accepter where
  deps : List Nat
  rejected : Bool
deriving DecidableEq, Repr

/-- A `DecisionDispatcher` event. -/
inductive Event where
  | issue (id : Nat)
  | accept (id : Nat)
  | reject (id : Nat)
deriving DecidableEq, Repr

/-- The full engine state: the `Directed` struct, the fields of the
embedded `common` struct, the explicit heap of node objects, and the
externally owned tx statuses and event sink. -/
structure DG where
  params : Params
  /-- All `directedTx` objects ever allocated, keyed by tx id
  (the object allocated by `Add`; kept after `delete(dg.txs, k)`
  because blockables still alias it). -/
  heap : List (Nat × DNode) := []
  /-- Key set of `dg.txs`. -/
  mapIds : List Nat := []
  /-- `dg.utxos`: UTXO id ↦ ids of txs consuming it. -/
  utxos : List (Nat × List Nat) := []
  virtuous : List Nat := []
  virtuousVoting : List Nat := []
  preferences : List Nat := []
  currentVote : Nat := 0
  /-- `directedAccepter` objects, keyed by the id of `a.fn`. -/
  accepters : List (Nat × Accepter) := []
  /-- `directedRejector` objects, keyed by the id of `r.fn`
  (only the `rejected` flag is ever read after registration). -/
  rejectors : List (Nat × Bool) := []
  /-- `pendingAccept` registry: dependency id ↦ accepter ids. -/
  pendAcc : List (Nat × List Nat) := []
  /-- `pendingReject` registry: dependency id ↦ rejector ids. -/
  pendRej : List (Nat × List Nat) := []
  /-- `wrappers.Errs`: the first stored error. -/
  errs : Option Nat := none
  /-- Externally owned statuses; an id absent from the list is
  `processing`. -/
  statuses : List (Nat × Status) := []
  /-- The `DecisionDispatcher` event log. -/
  events : List Event := []
deriving DecidableEq, Repr

/-- `tx.Status()` for the tx with the given id. -/
def statusOf (s : DG) (k : Nat) : Status := (alGet s.statuses k).getD .processing

/-- Read `dg.txs[k]`: succeeds only while `k` is a key of the map. -/
def lookupNode (s : DG) (k : Nat) : Option DNode :=
  if k ∈ s.mapIds then alGet s.heap k else none

/-- Read a node object through a retained pointer (no map lookup). -/
def heapGet (s : DG) (k : Nat) : Option DNode := alGet s.heap k

/-- Write through a pointer to the node object with id `k`. -/
def heapSet (s : DG) (k : Nat) (n : DNode) : DG := { s with heap := alSet s.heap k n }

/-- `errs.Add(err)`: `wrappers.Errs` keeps the first non-nil error. -/
def errsAdd (s : DG) (e : Option Nat) : DG :=
  match s.errs, e with
  | none, some e' => { s with errs := some e' }
  | _, _ => s

/-- The external `tx.Accept()` callback: on success the status becomes
`accepted`, on failure the error is returned. -/
def txAccept (s : DG) (t : Tx) : DG × Option Nat :=
  match t.acceptErr with
  | some e => (s, some e)
  | none => ({ s with statuses := alSet s.statuses t.id .accepted }, none)

/-- The external `tx.Reject()` callback. -/
def txReject (s : DG) (t : Tx) : DG × Option Nat :=
  match t.rejectErr with
  | some e => (s, some e)
  | none => ({ s with statuses := alSet s.statuses t.id .rejected }, none)

/-- `directedAccepter.Abandon`: set the accepter's `rejected` flag. -/
def abandonAccepter (s : DG) (aid : Nat) : DG :=
  match alGet s.accepters aid with
  | none => s
  | some a => { s with accepters := alSet s.accepters aid { a with rejected := true } }

/-- `dg.pendingAccept.Abandon(k)`: pop the accepters blocked on `k` and
run their `Abandon` callbacks. -/
def blockerAbandonAccept (s : DG) (k : Nat) : DG :=
  let waiting := (alGet s.pendAcc k).getD []
  let s := { s with pendAcc := alErase s.pendAcc k }
  waiting.foldl abandonAccepter s

/-- `dg.pendingReject.Abandon(k)`: pop the rejectors blocked on `k`;
`directedRejector.Abandon` is a no-op. -/
def blockerAbandonReject (s : DG) (k : Nat) : DG :=
  { s with pendRej := alErase s.pendRej k }

/-- One step of `dg.removeConflict(k, neighbors...)`: detach `k` from a
listed neighbor that still has a node; a neighbor whose `outs` empties
becomes preferred. -/
def removeConflictStep (k : Nat) (s : DG) (nb : Nat) : DG :=
  match lookupNode s nb with
  | none => s
  | some nn =>
    let nn' := { nn with ins := sRemove nn.ins k, outs := sRemove nn.outs k }
    let s := heapSet s nb nn'
    if nn'.outs = [] then { s with preferences := sAdd s.preferences nb } else s

/-- `dg.removeConflict(k, neighbors...)` iterates the step above. -/
def removeConflict (s : DG) (k : Nat) (neighbors : List Nat) : DG :=
  neighbors.foldl (removeConflictStep k) s

mutual

/-- One iteration of `dg.reject(ids...)` for a single id: delete the
node from the map, detach it from its neighbors, run `tx.Reject()`
(an error is returned), emit the `Reject` event and notify both
registries.  A missing node is a Go `nil`-pointer dereference: the
result is `none`. -/
def rejectOne (fuel : Nat) (s : DG) (k : Nat) : Option (DG × Option Nat) :=
  match fuel with
  | 0 => none
  | fuel + 1 =>
    match lookupNode s k with
    | none => none
    | some n =>
      let s1 := { s with mapIds := sRemove s.mapIds k,
                         preferences := sRemove s.preferences k }
      let s2 := removeConflict (removeConflict s1 k n.ins) k n.outs
      let r := txReject s2 n.tx
      match r.2 with
      | some e => some (r.1, some e)
      | none =>
        let s5 := { r.1 with events := r.1.events ++ [.reject k] }
        let s6 := blockerAbandonAccept s5 k
        match blockerFulfillReject fuel s6 k with
        | none => none
        | some s7 => some (s7, none)
termination_by structural fuel


/-- `dg.reject(ids...)`: iterate `rejectOne`; an error from `tx.Reject()`
stops the loop and is returned to the caller. -/
def rejectList (fuel : Nat) (s : DG) (l : List Nat) : Option (DG × Option Nat) :=
  match fuel with
  | 0 => none
  | fuel + 1 =>
    match l with
    | [] => some (s, none)
    | k :: rest =>
      match rejectOne fuel s k with
      | none => none
      | some r =>
        match r.2 with
        | some e => some (r.1, some e)
        | none => rejectList fuel r.1 rest
termination_by structural fuel


/-- `dg.pendingReject.Fulfill(k)`: pop the rejectors blocked on `k` and
run their `Fulfill` callbacks. -/
def blockerFulfillReject (fuel : Nat) (s : DG) (k : Nat) : Option DG :=
  match fuel with
  | 0 => none
  | fuel + 1 =>
    let waiting := (alGet s.pendRej k).getD []
    let s := { s with pendRej := alErase s.pendRej k }
    goRejectors fuel s waiting
termination_by structural fuel


/-- Run `directedRejector.Fulfill` for each listed rejector:
unless already rejected or an error is pending, mark it rejected and
cascade `dg.reject(fn.id)`, accumulating any returned error. -/
def goRejectors (fuel : Nat) (s : DG) (rids : List Nat) : Option DG :=
  match fuel with
  | 0 => none
  | fuel + 1 =>
    match rids with
    | [] => some s
    | rid :: rest =>
      match alGet s.rejectors rid with
      | none => goRejectors fuel s rest
      | some rejected =>
        if rejected ∨ s.errs ≠ none then
          goRejectors fuel s rest
        else
          let s1 := { s with rejectors := alSet s.rejectors rid true }
          match rejectList fuel s1 [rid] with
          | none => none
          | some r => goRejectors fuel (errsAdd r.1 r.2) rest
termination_by structural fuel


/-- `dg.pendingAccept.Fulfill(k)`: pop the accepters blocked on `k` and
run their `Fulfill` callbacks (remove the dependency, then `Update`). -/
def blockerFulfillAccept (fuel : Nat) (s : DG) (k : Nat) : Option DG :=
  match fuel with
  | 0 => none
  | fuel + 1 =>
    let waiting := (alGet s.pendAcc k).getD []
    let s := { s with pendAcc := alErase s.pendAcc k }
    goAccepters fuel s k waiting
termination_by structural fuel


/-- Run `directedAccepter.Fulfill(k)` for each listed accepter. -/
def goAccepters (fuel : Nat) (s : DG) (k : Nat) (aids : List Nat) : Option DG :=
  match fuel with
  | 0 => none
  | fuel + 1 =>
    match aids with
    | [] => some s
    | aid :: rest =>
      match alGet s.accepters aid with
      | none => goAccepters fuel s k rest
      | some a =>
        let s := { s with accepters := alSet s.accepters aid { a with deps := sRemove a.deps k } }
        match acceptUpdate fuel s aid with
        | none => none
        | some s => goAccepters fuel s k rest
termination_by structural fuel


/-- `directedAccepter.Update`: once not rejected, with no outstanding
dependencies and no pending error, commit the acceptance of `a.fn`:
delete it from the map, purge its input UTXO entries, drop it from
`virtuous` and `preferences`, reject its `ins` then its `outs`
(an error is accumulated and aborts), run `tx.Accept()` (same), mark the
node accepted, emit the `Accept` event and notify both registries. -/
def acceptUpdate (fuel : Nat) (s : DG) (aid : Nat) : Option DG :=
  match fuel with
  | 0 => none
  | fuel + 1 =>
    match alGet s.accepters aid with
    | none => some s
    | some a =>
      if a.rejected ∨ a.deps ≠ [] ∨ s.errs ≠ none then some s
      else
        match heapGet s aid with
        | none => some s
        | some n =>
          let s1 := { s with mapIds := sRemove s.mapIds aid,
                             utxos := n.tx.inputs.foldl (fun u i => alErase u i) s.utxos }
          let s2 := { s1 with virtuous := sRemove s1.virtuous aid,
                              preferences := sRemove s1.preferences aid }
          match rejectList fuel s2 n.ins with
          | none => none
          | some r1 =>
            match r1.2 with
            | some e => some (errsAdd r1.1 (some e))
            | none =>
              match rejectList fuel r1.1 n.outs with
              | none => none
              | some r2 =>
                match r2.2 with
                | some e => some (errsAdd r2.1 (some e))
                | none =>
                  let r3 := txAccept r2.1 n.tx
                  match r3.2 with
                  | some e => some (errsAdd r3.1 (some e))
                  | none =>
                    let s6 :=
                      match heapGet r3.1 aid with
                      | some n2 => heapSet r3.1 aid { n2 with accepted := true }
                      | none => r3.1
                    let s7 := { s6 with events := s6.events ++ [.accept aid] }
                    match blockerFulfillAccept fuel s7 aid with
                    | none => none
                    | some s8 => some (blockerAbandonReject s8 aid)
termination_by structural fuel

end

/-- `dg.deferAcceptance(fn)`: set `pendingAccept`, build the accepter
with `fn`'s undecided dependencies, drop `fn` from `virtuousVoting` and
register the accepter (registration stores it under each outstanding
dependency and lets it update). -/
def deferAcceptance (fuel : Nat) (s : DG) (fnId : Nat) : Option DG :=
  match heapGet s fnId with
  | none => none
  | some n =>
    let s := heapSet s fnId { n with pendingAccept := true }
    let deps := n.tx.deps.filter (fun d => ¬(statusOf s d).decided)
    let s := { s with virtuousVoting := sRemove s.virtuousVoting fnId }
    let s := { s with accepters := alSet s.accepters fnId ⟨deps, false⟩ }
    let s := { s with
      pendAcc := deps.foldl (fun pa d => alSet pa d ((alGet pa d).getD [] ++ [fnId])) s.pendAcc }
    acceptUpdate fuel s fnId

/-- `dg.redirectEdge(fn, conflictID)`: if `fn` outbiases the conflict,
invert the edge; the conflict loses its preference and `fn` becomes
preferred when its last out-edge disappears.  A missing conflict node is
a Go `nil`-pointer dereference. -/
def redirectEdge (s : DG) (wId : Nat) (conflictId : Nat) : Option DG :=
  match lookupNode s conflictId with
  | none => none
  | some conflict =>
    match heapGet s wId with
    | none => none
    | some w =>
      if conflict.bias < w.bias then
        let conflict' := { conflict with
          confidence := 0,
          ins := sRemove conflict.ins wId,
          outs := sAdd conflict.outs wId }
        let s := heapSet s conflictId conflict'
        let s := { s with preferences := sRemove s.preferences conflictId }
        let w' := { w with ins := sAdd w.ins conflictId, outs := sRemove w.outs conflictId }
        let s := heapSet s wId w'
        if w'.outs = [] then
          some { s with preferences := sAdd s.preferences wId }
        else
          some s
      else
        some s

/-- `dg.redirectEdges(fn)`: redirect against a snapshot of `fn.outs`. -/
def redirectEdges (s : DG) (wId : Nat) : Option DG :=
  match heapGet s wId with
  | none => none
  | some w =>
    w.outs.foldl (fun acc y => acc.bind (fun s => redirectEdge s wId y)) (some s)

/-- The body of the `RecordPoll` loop for one thresholded winner:
skip decided consumers, reset confidence on a vote gap, bump
`lastVote`/`bias`/`confidence`, defer acceptance past the relevant Beta
(an accumulated error aborts the poll), and redirect edges while the tx
is unaccepted.  The returned flag reports the early `return`. -/
def pollStep (fuel : Nat) (s : DG) (w : Nat) : Option (DG × Bool) :=
  match lookupNode s w with
  | none => some (s, false)
  | some n =>
    let conf0 := if n.lastVote + 1 ≠ s.currentVote then 0 else n.confidence
    let n' := { n with lastVote := s.currentVote, bias := n.bias + 1, confidence := conf0 + 1 }
    let s := heapSet s w n'
    let next : DG → Option (DG × Bool) := fun s =>
      match heapGet s w with
      | none => some (s, false)
      | some n2 =>
        if n2.accepted then some (s, false)
        else
          match redirectEdges s w with
          | none => none
          | some s => some (s, false)
    if ¬n'.pendingAccept ∧
        ((¬n'.rogue ∧ s.params.betaVirtuous ≤ n'.confidence) ∨
          s.params.betaRogue ≤ n'.confidence) then
      match deferAcceptance fuel s w with
      | none => none
      | some s => if s.errs ≠ none then some (s, true) else next s
    else next s

/-- The `RecordPoll` loop over the thresholded winners; an early return
and the final return both yield the accumulated error. -/
def pollLoop (fuel : Nat) (s : DG) : List Nat → Option (DG × Option Nat)
  | [] => some (s, s.errs)
  | w :: rest =>
    match pollStep fuel s w with
    | none => none
    | some r => if r.2 then some (r.1, r.1.errs) else pollLoop fuel r.1 rest

/-- The winners of a poll: the bag entries meeting the `Alpha`
threshold, in bag order. -/
def winners (alpha : Nat) (bag : List (Nat × Nat)) : List Nat :=
  (bag.filter (fun p => alpha ≤ p.2)).map Prod.fst

/-- `dg.RecordPoll(votes)`: advance `currentVote`, threshold the bag at
`Alpha`, process each winner in bag order, and return the accumulated
error (both on the early return and at the end). -/
def recordPoll (fuel : Nat) (s : DG) (bag : List (Nat × Nat)) : Option (DG × Option Nat) :=
  let s := { s with currentVote := s.currentVote + 1 }
  pollLoop fuel s (winners s.params.alpha bag)

/-- `dg.Issued(tx)`: decided status or a node in the graph. -/
def Issued (s : DG) (t : Tx) : Prop := (statusOf s t.id).decided ∨ t.id ∈ s.mapIds

instance (s : DG) (t : Tx) : Decidable (Issued s t) :=
  inferInstanceAs (Decidable ((statusOf s t.id).decided = true ∨ t.id ∈ s.mapIds))

/-- The inner loop of `Add` over the spenders of one input UTXO: mark
each conflicting spender rogue and point its `ins` at the new tx (the
unguarded map lookup panics when the spender has no node). -/
def addConflict (txId : Nat) (acc : Option DG) (conflictId : Nat) : Option DG :=
  acc.bind (fun s =>
    let s := { s with virtuous := sRemove s.virtuous conflictId,
                      virtuousVoting := sRemove s.virtuousVoting conflictId }
    match lookupNode s conflictId with
    | none => none
    | some c =>
      some (heapSet s conflictId { c with rogue := true, ins := sAdd c.ins txId }))

/-- The outer loop of `Add` over the new tx's input UTXOs: union the
spenders into the new node's `outs`, process each conflicting spender,
and record the new tx as a spender of the input. -/
def addInput (txId : Nat) (acc : Option (List Nat × DG)) (inputId : Nat) :
    Option (List Nat × DG) :=
  acc.bind (fun p =>
    let spends := (alGet p.2.utxos inputId).getD []
    let fnOuts := sUnion p.1 spends
    match spends.foldl (addConflict txId) (some p.2) with
    | none => none
    | some s =>
      some (fnOuts, { s with utxos := alSet s.utxos inputId (sAdd spends txId) }))

/-- `dg.Add(tx)`: no-op for issued txs; emit `Issue`; vacuously accept an
input-free tx; otherwise build the node, wire conflict edges through the
UTXO index, mark conflicting spenders rogue, classify the new tx, and
register its rejector under its undecided dependencies.  Returns the
accumulated error. -/
def add (s : DG) (tx : Tx) : Option (DG × Option Nat) :=
  if Issued s tx then some (s, none)
  else
    let s := { s with events := s.events ++ [.issue tx.id] }
    if tx.inputs = [] then
      let r := txAccept s tx
      match r.2 with
      | some e => some (r.1, some e)
      | none => some ({ r.1 with events := r.1.events ++ [.accept tx.id] }, none)
    else
      match tx.inputs.foldl (addInput tx.id) (some ([], s)) with
      | none => none
      | some q =>
        let fn : DNode := { rogue := q.1 ≠ [], outs := q.1, tx := tx }
        let s1 := heapSet q.2 tx.id fn
        let s2 := { s1 with mapIds := sAdd s1.mapIds tx.id }
        let s3 :=
          if fn.rogue then s2
          else { s2 with virtuous := sAdd s2.virtuous tx.id,
                         virtuousVoting := sAdd s2.virtuousVoting tx.id,
                         preferences := sAdd s2.preferences tx.id }
        let deps := tx.deps.filter (fun d => ¬(statusOf s3 d).decided)
        let s4 := { s3 with
          rejectors := alSet s3.rejectors tx.id false,
          pendRej := deps.foldl (fun pr d => alSet pr d ((alGet pr d).getD [] ++ [tx.id])) s3.pendRej }
        some (s4, s4.errs)

/-- `dg.Initialize(ctx, params)`. -/
def initDG (p : Params) : DG := { params := p }

/-- One driver operation: submit a tx or record a poll result. -/
inductive Op where
  | addTx (tx : Tx)
  | poll (bag : List (Nat × Nat))
deriving DecidableEq, Repr

/-- Run one operation (discarding the returned error). -/
def stepOp (fuel : Nat) (s : DG) : Op → Option DG
  | .addTx tx => (add s tx).map Prod.fst
  | .poll bag => (recordPoll fuel s bag).map Prod.fst

/-- Run a list of operations from a state. -/
def execOps (fuel : Nat) (s : DG) : List Op → Option DG
  | [] => some s
  | op :: rest =>
    match stepOp fuel s op with
    | none => none
    | some s => execOps fuel s rest

/-- Well-formed operations submit well-formed transactions
(`ids.Set`-typed inputs and dependencies carry no duplicates). -/
def WfOp : Op → Prop
  | .addTx tx => WfTx tx
  | .poll _ => True

instance (t : Tx) : Decidable (WfTx t) :=
  inferInstanceAs (Decidable (t.inputs.Nodup ∧ t.deps.Nodup))

instance (op : Op) : Decidable (WfOp op) :=
  match op with
  | .addTx tx => inferInstanceAs (Decidable (WfTx tx))
  | .poll _ => inferInstanceAs (Decidable True)

/-- A state is reachable when some well-formed operation sequence,
run with some fuel, produces it from a freshly initialized engine. -/
def Reachable (p : Params) (s : DG) : Prop :=
  ∃ fuel ops, (∀ op ∈ ops, WfOp op) ∧ execOps fuel (initDG p) ops = some s

end Snowstorm

namespace Snowstorm

/-! ## Concrete states used by the witnesses -/

/-- A simple transaction consuming one UTXO. -/
def txW : Tx := { id := 1, inputs := [101], deps := [] }

/-- A fresh conflict-graph node for `txW`. -/
def pollWitNode : DNode := { tx := txW }

/-- An engine mid-`RecordPoll` (vote counter already advanced) holding
the single node `pollWitNode`. -/
def pollWitState : DG :=
  { params := { alpha := 1, betaVirtuous := 5, betaRogue := 5 },
    heap := [(1, pollWitNode)], mapIds := [1], currentVote := 1 }

/-- A node that last received votes in poll 1. -/
def gapWitNode : DNode := { bias := 1, confidence := 1, lastVote := 1, tx := txW }

/-- An engine mid-`RecordPoll` of poll 3 whose node missed poll 2. -/
def gapWitState : DG :=
  { params := { alpha := 1, betaVirtuous := 5, betaRogue := 5 },
    heap := [(1, gapWitNode)], mapIds := [1], currentVote := 3 }

/-- Conflict-graph node of tx 1, currently pointed at by tx 2. -/
def redirWitY : DNode :=
  { bias := 0, ins := [2], outs := [], tx := { id := 1, inputs := [101], deps := [] } }

/-- Conflict-graph node of tx 2, outbiasing tx 1. -/
def redirWitW : DNode :=
  { bias := 1, ins := [], outs := [1], tx := { id := 2, inputs := [101], deps := [] } }

/-- A two-node conflict graph about to redirect the edge 2 → 1. -/
def redirWitState : DG :=
  { params := { alpha := 2, betaVirtuous := 1, betaRogue := 2 },
    heap := [(1, redirWitY), (2, redirWitW)], mapIds := [1, 2], preferences := [1] }

/-- Txs for the stale-UTXO-spender scenario: tx 1 spends u101, tx 2
spends u101 and u102, tx 3 spends u102. -/
def txA10 : Tx := { id := 1, inputs := [101], deps := [] }

def txB10 : Tx := { id := 2, inputs := [101, 102], deps := [] }

def txC10 : Tx := { id := 3, inputs := [102], deps := [] }

/-- Add both conflicting txs, then poll for tx 1 with
`Alpha = BetaVirtuous = BetaRogue = 1`: tx 1 is accepted and tx 2 is
rejected by the cascade. -/
def c10Ops : List Op := [.addTx txA10, .addTx txB10, .poll [(1, 1)]]

/-- The engine state after `c10Ops`. -/
def c10State : DG :=
  (execOps 20 (initDG { alpha := 1, betaVirtuous := 1, betaRogue := 1 }) c10Ops).getD
    (initDG { alpha := 1, betaVirtuous := 1, betaRogue := 1 })

/-- A tx whose `Reject` callback fails with error 7. -/
def txR8 : Tx := { id := 11, inputs := [201], deps := [], rejectErr := some 7 }

def txZ8 : Tx := { id := 12, inputs := [201, 202], deps := [] }

def txF8 : Tx := { id := 13, inputs := [201, 202], deps := [] }

/-- Add three mutually conflicting txs and poll for tx 13: its
acceptance cascade tries to reject tx 11, whose callback fails, storing
error 7 in the accumulator. -/
def c8Ops : List Op := [.addTx txR8, .addTx txZ8, .addTx txF8, .poll [(13, 1)]]

/-- The engine state after `c8Ops`: `errs = some 7`. -/
def c8State : DG :=
  (execOps 20 (initDG { alpha := 1, betaVirtuous := 1, betaRogue := 1 }) c8Ops).getD
    (initDG { alpha := 1, betaVirtuous := 1, betaRogue := 1 })

/-! ## Basic lemmas about the container operations -/

theorem mem_sAdd {l : List Nat} {x y : Nat} : y ∈ sAdd l x ↔ y ∈ l ∨ y = x := by
  unfold sAdd
  split
  · next h => constructor
              · exact Or.inl
              · rintro (h' | rfl)
                · exact h'
                · exact h
  · simp [List.mem_append]

theorem mem_sRemove {l : List Nat} {x y : Nat} : y ∈ sRemove l x ↔ y ∈ l ∧ y ≠ x := by
  unfold sRemove
  simp [List.mem_filter]

theorem sAdd_self {l : List Nat} {x : Nat} : x ∈ sAdd l x := mem_sAdd.mpr (Or.inr rfl)

theorem sRemove_ne_self {l : List Nat} {x : Nat} : x ∉ sRemove l x := by
  intro h
  exact (mem_sRemove.mp h).2 rfl

theorem mem_sUnion {l m : List Nat} {y : Nat} : y ∈ sUnion l m ↔ y ∈ l ∨ y ∈ m := by
  unfold sUnion
  induction m generalizing l with
  | nil => simp
  | cons a t ih =>
    simp only [List.foldl_cons, List.mem_cons]
    rw [ih, mem_sAdd]
    tauto

theorem alGet_alSet {α : Type} (l : List (Nat × α)) (k k' : Nat) (v : α) :
    alGet (alSet l k v) k' = if k' = k then some v else alGet l k' := by
  induction l with
  | nil =>
    by_cases h : k' = k
    · simp [alSet, alGet, h]
    · simp [alSet, alGet, h, Ne.symm h]
  | cons p t ih =>
    by_cases hp : p.1 = k
    · by_cases h : k' = k
      · simp [alSet, alGet, hp, h]
      · have hq : ¬ p.1 = k' := fun hh => h ((hh ▸ hp : k' = k))
        simp [alSet, alGet, hp, h, hq, Ne.symm h]
    · by_cases hq : p.1 = k'
      · have h : ¬ k' = k := fun hh => hp (hq ▸ hh)
        simp [alSet, alGet, hp, hq, h]
      · simp [alSet, alGet, hp, hq, ih]

theorem alGet_alErase {α : Type} (l : List (Nat × α)) (k k' : Nat) :
    alGet (alErase l k) k' = if k' = k then none else alGet l k' := by
  induction l with
  | nil => by_cases h : k' = k <;> simp [alErase, alGet, h]
  | cons p t ih =>
    by_cases hp : p.1 = k
    · have : alErase (p :: t) k = alErase t k := by
        simp [alErase, List.filter_cons, hp]
      rw [this, ih]
      by_cases h : k' = k
      · simp [h]
      · have hq : ¬ p.1 = k' := fun hh => h (hh ▸ hp)
        simp [h, alGet, hq]
    · have : alErase (p :: t) k = p :: alErase t k := by
        simp [alErase, List.filter_cons, hp]
      rw [this]
      by_cases hq : p.1 = k'
      · have h : ¬ k' = k := fun hh => hp (hq ▸ hh)
        simp [alGet, hq, h]
      · simp [alGet, hq, ih]

/-! ## Claim C6: vacuous acceptance on `Add` -/

/-- Helper: `Add` on an issued tx is a silent no-op returning nil. -/
theorem add_of_issued (s : DG) (tx : Tx) (h : Issued s tx) : add s tx = some (s, none) := by
  unfold add
  rw [if_pos h]

/-- C6: For every not-yet-issued transaction whose input-UTXO set is
empty (and whose `Accept` callback does not fail), `Add` immediately
finalizes it as accepted — `Accept` is invoked, so its status becomes
`accepted`, and the `Accept` event is emitted after the `Issue` event —
and inserts no node into the conflict graph: the tx map, heap, UTXO
index, virtuous, virtuousVoting and preferences sets are unchanged. -/
theorem add_vacuous_accepts (s : DG) (tx : Tx)
    (hni : ¬ Issued s tx) (hin : tx.inputs = []) (hok : tx.acceptErr = none) :
    ∃ s', add s tx = some (s', none) ∧
      s'.mapIds = s.mapIds ∧ s'.heap = s.heap ∧ s'.utxos = s.utxos ∧
      s'.virtuous = s.virtuous ∧ s'.virtuousVoting = s.virtuousVoting ∧
      s'.preferences = s.preferences ∧
      statusOf s' tx.id = .accepted ∧
      s'.events = s.events ++ [.issue tx.id, .accept tx.id] := by
  unfold add
  rw [if_neg hni, if_pos hin]
  simp only [txAccept, hok]
  exact ⟨_, rfl, rfl, rfl, rfl, rfl, rfl, rfl,
    by simp [statusOf, alGet_alSet], by simp⟩

/-- Witness for C6 at a concrete input. -/
theorem add_vacuous_accepts_witness :
    ¬ Issued (initDG ⟨1, 1, 1⟩) { id := 1, inputs := [], deps := [] } ∧
    ∃ s', add (initDG ⟨1, 1, 1⟩) { id := 1, inputs := [], deps := [] } = some (s', none) ∧
      s'.mapIds = (initDG ⟨1, 1, 1⟩).mapIds ∧ s'.heap = (initDG ⟨1, 1, 1⟩).heap ∧
      s'.utxos = (initDG ⟨1, 1, 1⟩).utxos ∧
      s'.virtuous = (initDG ⟨1, 1, 1⟩).virtuous ∧
      s'.virtuousVoting = (initDG ⟨1, 1, 1⟩).virtuousVoting ∧
      s'.preferences = (initDG ⟨1, 1, 1⟩).preferences ∧
      statusOf s' 1 = .accepted ∧
      s'.events = (initDG ⟨1, 1, 1⟩).events ++ [.issue 1, .accept 1] :=
  ⟨by decide, add_vacuous_accepts _ _ (by decide) rfl rfl⟩

/-! ## Claim C7: idempotence of `Add` -/

/-- Helper: a successful non-vacuous `Add` leaves the tx issued. -/
theorem add_mem_mapIds (s : DG) (tx : Tx) (s' : DG) (r : Option Nat)
    (hni : ¬ Issued s tx) (hin : tx.inputs ≠ [])
    (h : add s tx = some (s', r)) : tx.id ∈ s'.mapIds := by
  unfold add at h
  rw [if_neg hni, if_neg hin] at h
  cases hfold : tx.inputs.foldl (addInput tx.id) (some ([], { s with events := s.events ++ [.issue tx.id] })) with
  | none => rw [hfold] at h; cases h
  | some p =>
    rw [hfold] at h
    obtain ⟨fnOuts, s1⟩ := p
    simp only at h
    split at h <;>
      · cases h
        simp [sAdd_self]

/-- C7: `Add` of an already-issued transaction (decided status or a node
in the graph) returns success and leaves the engine state unchanged; in
particular `Add` twice with the same (non-vacuous) transaction has the
same effect as `Add` once. -/
theorem add_idempotent (s : DG) (tx : Tx) :
    (Issued s tx → add s tx = some (s, none)) ∧
    (∀ s' r, tx.inputs ≠ [] → add s tx = some (s', r) →
      add s' tx = some (s', none)) := by
  constructor
  · exact add_of_issued s tx
  · intro s' r hin h
    by_cases hi : Issued s tx
    · rw [add_of_issued s tx hi] at h
      cases h
      exact add_of_issued s tx hi
    · exact add_of_issued s' tx (Or.inr (add_mem_mapIds s tx s' r hi hin h))

/-- Witness for C7 at a concrete input. -/
theorem add_idempotent_witness :
    Issued { initDG ⟨1, 1, 1⟩ with statuses := [(1, .accepted)] } { id := 1, inputs := [3], deps := [] } ∧
    add { initDG ⟨1, 1, 1⟩ with statuses := [(1, .accepted)] } { id := 1, inputs := [3], deps := [] } =
      some ({ initDG ⟨1, 1, 1⟩ with statuses := [(1, .accepted)] }, none) ∧
    ([3] : List Nat) ≠ [] := by
  refine ⟨by decide, ?_, by decide⟩
  exact (add_idempotent _ _).1 (by decide)

/-! ## Frame lemmas: vote counters are only touched by the poll loop -/

/-- The vote counters of the node with id `k` agree in `s` and `s'`. -/
def CountersEq (s s' : DG) (k : Nat) : Prop :=
  ((heapGet s' k).map fun n => (n.bias, n.confidence, n.lastVote)) =
    ((heapGet s k).map fun n => (n.bias, n.confidence, n.lastVote))

theorem countersEq_refl (s : DG) (k : Nat) : CountersEq s s k := rfl

theorem countersEq_trans {s1 s2 s3 : DG} {k : Nat}
    (h1 : CountersEq s1 s2 k) (h2 : CountersEq s2 s3 k) : CountersEq s1 s3 k :=
  Eq.trans h2 h1

theorem countersEq_of_heap_eq {s s' : DG} (h : s'.heap = s.heap) (k : Nat) :
    CountersEq s s' k := by
  unfold CountersEq heapGet
  rw [h]

theorem countersEq_heapSet (s : DG) (j k : Nat) (n n' : DNode)
    (hget : heapGet s j = some n)
    (hb : n'.bias = n.bias) (hc : n'.confidence = n.confidence)
    (hl : n'.lastVote = n.lastVote) :
    CountersEq s (heapSet s j n') k := by
  unfold CountersEq heapGet heapSet
  simp only [alGet_alSet]
  by_cases h : k = j
  · subst h
    unfold heapGet at hget
    simp [hget, hb, hc, hl]
  · simp [h]

theorem txAccept_heap (s : DG) (t : Tx) : (txAccept s t).1.heap = s.heap := by
  unfold txAccept
  cases t.acceptErr <;> rfl

theorem txReject_heap (s : DG) (t : Tx) : (txReject s t).1.heap = s.heap := by
  unfold txReject
  cases t.rejectErr <;> rfl

theorem errsAdd_heap (s : DG) (e : Option Nat) : (errsAdd s e).heap = s.heap := by
  unfold errsAdd
  cases s.errs <;> cases e <;> rfl

theorem abandonAccepter_heap (s : DG) (aid : Nat) :
    (abandonAccepter s aid).heap = s.heap := by
  unfold abandonAccepter
  cases alGet s.accepters aid <;> rfl

theorem foldl_abandonAccepter_heap (l : List Nat) (s : DG) :
    (l.foldl abandonAccepter s).heap = s.heap := by
  induction l generalizing s with
  | nil => rfl
  | cons a t ih => rw [List.foldl_cons, ih, abandonAccepter_heap]

theorem blockerAbandonAccept_heap (s : DG) (k : Nat) :
    (blockerAbandonAccept s k).heap = s.heap := by
  unfold blockerAbandonAccept
  rw [foldl_abandonAccepter_heap]

theorem removeConflict_cons (s : DG) (k a : Nat) (t : List Nat) :
    removeConflict s k (a :: t) = removeConflict (removeConflictStep k s a) k t := rfl

theorem countersEq_removeConflictStep (s : DG) (k nb j : Nat) :
    CountersEq s (removeConflictStep k s nb) j := by
  unfold removeConflictStep
  cases hx : lookupNode s nb with
  | none => exact countersEq_refl s j
  | some nn =>
    have hget : heapGet s nb = some nn := by
      unfold lookupNode at hx
      unfold heapGet
      split at hx
      · exact hx
      · cases hx
    simp only
    split
    · exact countersEq_heapSet s nb j nn _ hget rfl rfl rfl
    · exact countersEq_heapSet s nb j nn _ hget rfl rfl rfl

theorem countersEq_removeConflict (nbs : List Nat) (s : DG) (k j : Nat) :
    CountersEq s (removeConflict s k nbs) j := by
  induction nbs generalizing s with
  | nil => exact countersEq_refl s j
  | cons a t ih =>
    rw [removeConflict_cons]
    exact countersEq_trans (countersEq_removeConflictStep s k a j) (ih _)

theorem countersEq_rejectPre (s : DG) (k0 j : Nat) (n : DNode) :
    CountersEq s (removeConflict (removeConflict
      { s with mapIds := sRemove s.mapIds k0, preferences := sRemove s.preferences k0 }
      k0 n.ins) k0 n.outs) j := by
  refine countersEq_trans ?_ (countersEq_removeConflict n.outs _ k0 j)
  refine countersEq_trans ?_ (countersEq_removeConflict n.ins _ k0 j)
  exact countersEq_of_heap_eq rfl j

theorem blockerAbandonReject_heap (s : DG) (k : Nat) :
    (blockerAbandonReject s k).heap = s.heap := rfl

/-- None of the accept/reject cascade functions changes the vote
counters of any node: only the `pollStep` bump does. -/
theorem countersEq_cascades (fuel : Nat) :
    (∀ s k0 res, rejectOne fuel s k0 = some res → ∀ k, CountersEq s res.1 k) ∧
    (∀ s l res, rejectList fuel s l = some res → ∀ k, CountersEq s res.1 k) ∧
    (∀ s k0 s', blockerFulfillReject fuel s k0 = some s' → ∀ k, CountersEq s s' k) ∧
    (∀ s rids s', goRejectors fuel s rids = some s' → ∀ k, CountersEq s s' k) ∧
    (∀ s k0 s', blockerFulfillAccept fuel s k0 = some s' → ∀ k, CountersEq s s' k) ∧
    (∀ s k0 aids s', goAccepters fuel s k0 aids = some s' → ∀ k, CountersEq s s' k) ∧
    (∀ s aid s', acceptUpdate fuel s aid = some s' → ∀ k, CountersEq s s' k) := by
  induction fuel with
  | zero =>
    refine ⟨?_, ?_, ?_, ?_, ?_, ?_, ?_⟩
    · intro s k0 res h; unfold rejectOne at h; cases h
    · intro s l res h; unfold rejectList at h; cases h
    · intro s k0 s' h; unfold blockerFulfillReject at h; cases h
    · intro s rids s' h; unfold goRejectors at h; cases h
    · intro s k0 s' h; unfold blockerFulfillAccept at h; cases h
    · intro s k0 aids s' h; unfold goAccepters at h; cases h
    · intro s aid s' h; unfold acceptUpdate at h; cases h
  | succ fuel ih =>
    obtain ⟨ihRO, ihRL, ihBFR, ihGR, ihBFA, ihGA, ihAU⟩ := ih
    refine ⟨?_, ?_, ?_, ?_, ?_, ?_, ?_⟩
    · -- rejectOne
      intro s k0 res h k
      unfold rejectOne at h
      simp only at h
      cases hlk : lookupNode s k0 with
      | none => rw [hlk] at h; cases h
      | some n =>
        rw [hlk] at h
        simp only at h
        split at h
        · next e heq =>
          cases h
          refine countersEq_trans (countersEq_rejectPre s k0 k n) ?_
          exact countersEq_of_heap_eq (txReject_heap _ n.tx) k
        · next heq =>
          split at h
          · cases h
          · next s7 hbfr =>
            cases h
            refine countersEq_trans (countersEq_rejectPre s k0 k n) ?_
            refine countersEq_trans (countersEq_of_heap_eq (txReject_heap _ n.tx) k) ?_
            refine countersEq_trans ?_ (ihBFR _ k0 _ hbfr k)
            exact countersEq_of_heap_eq (blockerAbandonAccept_heap _ k0) k
    · -- rejectList
      intro s l res h k
      unfold rejectList at h
      cases l with
      | nil => cases h; exact countersEq_refl s k
      | cons k0 rest =>
        simp only at h
        cases hro : rejectOne fuel s k0 with
        | none => rw [hro] at h; cases h
        | some r =>
          rw [hro] at h
          simp only at h
          cases hr2 : r.2 with
          | some e => rw [hr2] at h; cases h; exact ihRO _ _ _ hro k
          | none =>
            rw [hr2] at h
            exact countersEq_trans (ihRO _ _ _ hro k) (ihRL _ _ _ h k)
    · -- blockerFulfillReject
      intro s k0 s' h k
      unfold blockerFulfillReject at h
      simp only at h
      exact countersEq_trans (countersEq_of_heap_eq rfl k) (ihGR _ _ s' h k)
    · -- goRejectors
      intro s rids s' h k
      unfold goRejectors at h
      cases rids with
      | nil => cases h; exact countersEq_refl s k
      | cons rid rest =>
        simp only at h
        cases hrj : alGet s.rejectors rid with
        | none => rw [hrj] at h; exact ihGR _ _ _ h k
        | some rejected =>
          rw [hrj] at h
          simp only at h
          split at h
          · exact ihGR _ _ _ h k
          · split at h
            · cases h
            · next r hrl =>
              refine countersEq_trans (countersEq_of_heap_eq rfl k) ?_
              refine countersEq_trans (ihRL _ _ _ hrl k) ?_
              exact countersEq_trans (countersEq_of_heap_eq (errsAdd_heap r.1 r.2) k) (ihGR _ _ _ h k)
    · -- blockerFulfillAccept
      intro s k0 s' h k
      unfold blockerFulfillAccept at h
      simp only at h
      exact countersEq_trans (countersEq_of_heap_eq rfl k) (ihGA _ k0 _ s' h k)
    · -- goAccepters
      intro s k0 aids s' h k
      unfold goAccepters at h
      cases aids with
      | nil => cases h; exact countersEq_refl s k
      | cons aid rest =>
        simp only at h
        cases hac : alGet s.accepters aid with
        | none => rw [hac] at h; exact ihGA _ _ _ _ h k
        | some a =>
          rw [hac] at h
          simp only at h
          split at h
          · cases h
          · next s2 hau =>
            refine countersEq_trans (countersEq_of_heap_eq rfl k) ?_
            exact countersEq_trans (ihAU _ _ _ hau k) (ihGA _ _ _ _ h k)
    · -- acceptUpdate
      intro s aid s' h k
      unfold acceptUpdate at h
      simp only at h
      cases hac : alGet s.accepters aid with
      | none => rw [hac] at h; cases h; exact countersEq_refl s k
      | some a =>
        rw [hac] at h
        simp only at h
        split at h
        · cases h; exact countersEq_refl s k
        · cases hhg : heapGet s aid with
          | none => rw [hhg] at h; cases h; exact countersEq_refl s k
          | some n =>
            rw [hhg] at h
            simp only at h
            split at h
            · cases h
            · next r1 hrl1 =>
              split at h
              · next e heq1 =>
                cases h
                refine countersEq_trans (countersEq_of_heap_eq rfl k) ?_
                refine countersEq_trans (ihRL _ _ _ hrl1 k) ?_
                exact countersEq_of_heap_eq (errsAdd_heap r1.1 (some e)) k
              · next heq1 =>
                split at h
                · cases h
                · next r2 hrl2 =>
                  split at h
                  · next e heq2 =>
                    cases h
                    refine countersEq_trans (countersEq_of_heap_eq rfl k) ?_
                    refine countersEq_trans (ihRL _ _ _ hrl1 k) ?_
                    refine countersEq_trans (ihRL _ _ _ hrl2 k) ?_
                    exact countersEq_of_heap_eq (errsAdd_heap r2.1 (some e)) k
                  · next heq2 =>
                    split at h
                    · next e heq3 =>
                      cases h
                      refine countersEq_trans (countersEq_of_heap_eq rfl k) ?_
                      refine countersEq_trans (ihRL _ _ _ hrl1 k) ?_
                      refine countersEq_trans (ihRL _ _ _ hrl2 k) ?_
                      refine countersEq_trans (countersEq_of_heap_eq (txAccept_heap r2.1 n.tx) k) ?_
                      exact countersEq_of_heap_eq (errsAdd_heap _ (some e)) k
                    · next heq3 =>
                      cases hn2 : heapGet (txAccept r2.1 n.tx).1 aid with
                      | none =>
                        rw [hn2] at h
                        simp only at h
                        split at h
                        · cases h
                        · next s8 hbfa =>
                          cases h
                          refine countersEq_trans (countersEq_of_heap_eq rfl k) ?_
                          refine countersEq_trans (ihRL _ _ _ hrl1 k) ?_
                          refine countersEq_trans (ihRL _ _ _ hrl2 k) ?_
                          refine countersEq_trans (countersEq_of_heap_eq (txAccept_heap r2.1 n.tx) k) ?_
                          refine countersEq_trans (countersEq_of_heap_eq rfl k) ?_
                          exact countersEq_trans (ihBFA _ aid _ hbfa k)
                            (countersEq_of_heap_eq (blockerAbandonReject_heap s8 aid) k)
                      | some n2 =>
                        rw [hn2] at h
                        simp only at h
                        split at h
                        · cases h
                        · next s8 hbfa =>
                          cases h
                          refine countersEq_trans (countersEq_of_heap_eq rfl k) ?_
                          refine countersEq_trans (ihRL _ _ _ hrl1 k) ?_
                          refine countersEq_trans (ihRL _ _ _ hrl2 k) ?_
                          refine countersEq_trans (countersEq_of_heap_eq (txAccept_heap r2.1 n.tx) k) ?_
                          refine countersEq_trans (countersEq_heapSet _ aid k n2
                            { n2 with accepted := true } hn2 rfl rfl rfl) ?_
                          refine countersEq_trans (countersEq_of_heap_eq rfl k) ?_
                          exact countersEq_trans (ihBFA _ aid _ hbfa k)
                            (countersEq_of_heap_eq (blockerAbandonReject_heap s8 aid) k)

/-! ## Heap evolution through the cascades: nodes keep their counters
and their edge sets only shrink -/

/-- Between `s` and `s'`, every heap node keeps its id domain, counters
and tx, and its `ins`/`outs` sets only lose elements. -/
def HeapEvol (s s' : DG) : Prop :=
  (∀ k, heapGet s k = none ↔ heapGet s' k = none) ∧
  ∀ k n n', heapGet s k = some n → heapGet s' k = some n' →
    n'.bias = n.bias ∧ n'.confidence = n.confidence ∧ n'.lastVote = n.lastVote ∧
      n'.tx = n.tx ∧ n'.outs ⊆ n.outs ∧ n'.ins ⊆ n.ins

theorem sRemove_subset (l : List Nat) (x : Nat) : sRemove l x ⊆ l :=
  fun a ha => (mem_sRemove.mp ha).1

theorem sAdd_subset_sAdd {l m : List Nat} (x : Nat) (h : l ⊆ m) : sAdd l x ⊆ sAdd m x := by
  intro a ha
  rcases mem_sAdd.mp ha with h' | rfl
  · exact mem_sAdd.mpr (Or.inl (h h'))
  · exact sAdd_self

theorem heapEvol_refl (s : DG) : HeapEvol s s := by
  constructor
  · intro k; exact Iff.rfl
  · intro k n n' h h'
    rw [h] at h'
    cases h'
    exact ⟨rfl, rfl, rfl, rfl, List.Subset.refl _, List.Subset.refl _⟩

theorem heapEvol_trans {s1 s2 s3 : DG}
    (h1 : HeapEvol s1 s2) (h2 : HeapEvol s2 s3) : HeapEvol s1 s3 := by
  obtain ⟨d1, v1⟩ := h1
  obtain ⟨d2, v2⟩ := h2
  constructor
  · intro k; exact (d1 k).trans (d2 k)
  · intro k n n' h h'
    cases e2 : heapGet s2 k with
    | none =>
      rw [(d1 k).mpr e2] at h
      cases h
    | some n2 =>
      obtain ⟨b1, c1, l1, t1, o1, i1⟩ := v1 k n n2 h e2
      obtain ⟨b2, c2, l2, t2, o2, i2⟩ := v2 k n2 n' e2 h'
      exact ⟨b2.trans b1, c2.trans c1, l2.trans l1, t2.trans t1,
        o2.trans o1, i2.trans i1⟩

theorem heapEvol_of_heap_eq {s s' : DG} (h : s'.heap = s.heap) : HeapEvol s s' := by
  have hg : heapGet s' = heapGet s := by
    funext k
    unfold heapGet
    rw [h]
  constructor
  · intro k; rw [hg]
  · intro k n n' hn hn'
    rw [hg, hn] at hn'
    cases hn'
    exact ⟨rfl, rfl, rfl, rfl, List.Subset.refl _, List.Subset.refl _⟩

theorem heapEvol_events (s : DG) (ev : List Event) :
    HeapEvol s { s with events := ev } := heapEvol_of_heap_eq rfl

theorem heapEvol_heapSet {s : DG} {j : Nat} {n n' : DNode}
    (hget : heapGet s j = some n)
    (hb : n'.bias = n.bias) (hc : n'.confidence = n.confidence)
    (hl : n'.lastVote = n.lastVote) (ht : n'.tx = n.tx)
    (ho : n'.outs ⊆ n.outs) (hi : n'.ins ⊆ n.ins) :
    HeapEvol s (heapSet s j n') := by
  have hg : ∀ k, heapGet (heapSet s j n') k = if k = j then some n' else heapGet s k := by
    intro k
    unfold heapGet heapSet
    simp only [alGet_alSet]
  constructor
  · intro k
    rw [hg k]
    by_cases h : k = j
    · subst h
      simp [hget]
    · simp [h]
  · intro k m m' hm hm'
    rw [hg k] at hm'
    by_cases h : k = j
    · subst h
      rw [hget] at hm
      cases hm
      rw [if_pos rfl] at hm'
      cases hm'
      exact ⟨hb, hc, hl, ht, ho, hi⟩
    · rw [if_neg h, hm] at hm'
      cases hm'
      exact ⟨rfl, rfl, rfl, rfl, List.Subset.refl _, List.Subset.refl _⟩

theorem heapEvol_removeConflictStep (s : DG) (k nb : Nat) :
    HeapEvol s (removeConflictStep k s nb) := by
  unfold removeConflictStep
  cases hx : lookupNode s nb with
  | none => exact heapEvol_refl s
  | some nn =>
    have hget : heapGet s nb = some nn := by
      unfold lookupNode at hx
      unfold heapGet
      split at hx
      · exact hx
      · cases hx
    simp only
    split
    · exact heapEvol_heapSet hget rfl rfl rfl rfl (sRemove_subset _ _) (sRemove_subset _ _)
    · exact heapEvol_heapSet hget rfl rfl rfl rfl (sRemove_subset _ _) (sRemove_subset _ _)

theorem heapEvol_removeConflict (nbs : List Nat) (s : DG) (k : Nat) :
    HeapEvol s (removeConflict s k nbs) := by
  induction nbs generalizing s with
  | nil => exact heapEvol_refl s
  | cons a t ih =>
    rw [removeConflict_cons]
    exact heapEvol_trans (heapEvol_removeConflictStep s k a) (ih _)

theorem heapEvol_rejectPre (s : DG) (k0 : Nat) (n : DNode) :
    HeapEvol s (removeConflict (removeConflict
      { s with mapIds := sRemove s.mapIds k0, preferences := sRemove s.preferences k0 }
      k0 n.ins) k0 n.outs) := by
  refine heapEvol_trans ?_ (heapEvol_removeConflict n.outs _ k0)
  refine heapEvol_trans ?_ (heapEvol_removeConflict n.ins _ k0)
  exact heapEvol_of_heap_eq rfl

/-- The accept/reject cascades only shrink edge sets and never touch
counters, txs or the heap domain. -/
theorem heapEvol_cascades (fuel : Nat) :
    (∀ s k0 res, rejectOne fuel s k0 = some res → HeapEvol s res.1) ∧
    (∀ s l res, rejectList fuel s l = some res → HeapEvol s res.1) ∧
    (∀ s k0 s', blockerFulfillReject fuel s k0 = some s' → HeapEvol s s') ∧
    (∀ s rids s', goRejectors fuel s rids = some s' → HeapEvol s s') ∧
    (∀ s k0 s', blockerFulfillAccept fuel s k0 = some s' → HeapEvol s s') ∧
    (∀ s k0 aids s', goAccepters fuel s k0 aids = some s' → HeapEvol s s') ∧
    (∀ s aid s', acceptUpdate fuel s aid = some s' → HeapEvol s s') := by
  induction fuel with
  | zero =>
    refine ⟨?_, ?_, ?_, ?_, ?_, ?_, ?_⟩
    · intro s k0 res h; unfold rejectOne at h; cases h
    · intro s l res h; unfold rejectList at h; cases h
    · intro s k0 s' h; unfold blockerFulfillReject at h; cases h
    · intro s rids s' h; unfold goRejectors at h; cases h
    · intro s k0 s' h; unfold blockerFulfillAccept at h; cases h
    · intro s k0 aids s' h; unfold goAccepters at h; cases h
    · intro s aid s' h; unfold acceptUpdate at h; cases h
  | succ fuel ih =>
    obtain ⟨ihRO, ihRL, ihBFR, ihGR, ihBFA, ihGA, ihAU⟩ := ih
    refine ⟨?_, ?_, ?_, ?_, ?_, ?_, ?_⟩
    · -- rejectOne
      intro s k0 res h
      unfold rejectOne at h
      simp only at h
      cases hlk : lookupNode s k0 with
      | none => rw [hlk] at h; cases h
      | some n =>
        rw [hlk] at h
        simp only at h
        split at h
        · next e heq =>
          cases h
          exact heapEvol_trans (heapEvol_rejectPre s k0 n)
            (heapEvol_of_heap_eq (txReject_heap _ n.tx))
        · next heq =>
          split at h
          · cases h
          · next s7 hbfr =>
            cases h
            refine heapEvol_trans (heapEvol_rejectPre s k0 n)
              (heapEvol_trans (heapEvol_of_heap_eq (txReject_heap _ n.tx))
                (heapEvol_trans ?_ (ihBFR _ k0 _ hbfr)))
            exact heapEvol_of_heap_eq (blockerAbandonAccept_heap _ k0)
    · -- rejectList
      intro s l res h
      unfold rejectList at h
      cases l with
      | nil => cases h; exact heapEvol_refl s
      | cons k0 rest =>
        simp only at h
        cases hro : rejectOne fuel s k0 with
        | none => rw [hro] at h; cases h
        | some r =>
          rw [hro] at h
          simp only at h
          cases hr2 : r.2 with
          | some e => rw [hr2] at h; cases h; exact ihRO _ _ r hro
          | none =>
            rw [hr2] at h
            exact heapEvol_trans (ihRO _ _ r hro) (ihRL _ _ _ h)
    · -- blockerFulfillReject
      intro s k0 s' h
      unfold blockerFulfillReject at h
      simp only at h
      have h1 := ihGR _ _ s' h
      exact h1
    · -- goRejectors
      intro s rids s' h
      unfold goRejectors at h
      cases rids with
      | nil => cases h; exact heapEvol_refl s
      | cons rid rest =>
        simp only at h
        cases hrj : alGet s.rejectors rid with
        | none => rw [hrj] at h; exact ihGR _ _ _ h
        | some rejected =>
          rw [hrj] at h
          simp only at h
          split at h
          · exact ihGR _ _ _ h
          · split at h
            · cases h
            · next r hrl =>
              have h1 := ihRL _ _ _ hrl
              have h2 := ihGR _ _ _ h
              exact heapEvol_trans h1
                (heapEvol_trans (heapEvol_of_heap_eq (errsAdd_heap r.1 r.2)) h2)
    · -- blockerFulfillAccept
      intro s k0 s' h
      unfold blockerFulfillAccept at h
      simp only at h
      have h1 := ihGA _ k0 _ s' h
      exact h1
    · -- goAccepters
      intro s k0 aids s' h
      unfold goAccepters at h
      cases aids with
      | nil => cases h; exact heapEvol_refl s
      | cons aid rest =>
        simp only at h
        cases hac : alGet s.accepters aid with
        | none => rw [hac] at h; exact ihGA _ _ _ _ h
        | some a =>
          rw [hac] at h
          simp only at h
          split at h
          · cases h
          · next s2 hau =>
            have h1 := ihAU _ _ _ hau
            have h2 := ihGA _ _ _ _ h
            exact heapEvol_trans h1 h2
    · -- acceptUpdate
      intro s aid s' h
      unfold acceptUpdate at h
      simp only at h
      cases hac : alGet s.accepters aid with
      | none => rw [hac] at h; cases h; exact heapEvol_refl s
      | some a =>
        rw [hac] at h
        simp only at h
        split at h
        · cases h; exact heapEvol_refl s
        · cases hhg : heapGet s aid with
          | none => rw [hhg] at h; cases h; exact heapEvol_refl s
          | some n =>
            rw [hhg] at h
            simp only at h
            split at h
            · cases h
            · next r1 hrl1 =>
              split at h
              · next e heq1 =>
                cases h
                have h1 := ihRL _ _ _ hrl1
                exact heapEvol_trans h1 (heapEvol_of_heap_eq (errsAdd_heap r1.1 (some e)))
              · next heq1 =>
                split at h
                · cases h
                · next r2 hrl2 =>
                  split at h
                  · next e heq2 =>
                    cases h
                    have h1 := ihRL _ _ _ hrl1
                    have h2 := ihRL _ _ _ hrl2
                    exact heapEvol_trans h1
                      (heapEvol_trans h2 (heapEvol_of_heap_eq (errsAdd_heap r2.1 (some e))))
                  · next heq2 =>
                    split at h
                    · next e heq3 =>
                      cases h
                      have h1 := ihRL _ _ _ hrl1
                      have h2 := ihRL _ _ _ hrl2
                      exact heapEvol_trans h1
                        (heapEvol_trans h2
                          (heapEvol_trans (heapEvol_of_heap_eq (txAccept_heap r2.1 n.tx))
                            (heapEvol_of_heap_eq (errsAdd_heap _ (some e)))))
                    · next heq3 =>
                      cases hn2 : heapGet (txAccept r2.1 n.tx).1 aid with
                      | none =>
                        rw [hn2] at h
                        simp only at h
                        split at h
                        · cases h
                        · next s8 hbfa =>
                          cases h
                          have h1 := ihRL _ _ _ hrl1
                          have h2 := ihRL _ _ _ hrl2
                          have h4 := ihBFA _ aid _ hbfa
                          refine heapEvol_trans h1
                            (heapEvol_trans h2
                              (heapEvol_trans (heapEvol_of_heap_eq (txAccept_heap r2.1 n.tx))
                                (heapEvol_trans ?_ (heapEvol_trans h4
                                  (heapEvol_of_heap_eq (blockerAbandonReject_heap s8 aid))))))
                          exact heapEvol_of_heap_eq rfl
                      | some n2 =>
                        rw [hn2] at h
                        simp only at h
                        split at h
                        · cases h
                        · next s8 hbfa =>
                          cases h
                          have h1 := ihRL _ _ _ hrl1
                          have h2 := ihRL _ _ _ hrl2
                          have h4 := ihBFA _ aid _ hbfa
                          refine heapEvol_trans h1
                            (heapEvol_trans h2
                              (heapEvol_trans (heapEvol_of_heap_eq (txAccept_heap r2.1 n.tx))
                                (heapEvol_trans (@heapEvol_heapSet _ aid n2
                                    { n2 with accepted := true } hn2 rfl rfl rfl rfl
                                    (List.Subset.refl _) (List.Subset.refl _))
                                  (heapEvol_trans ?_ (heapEvol_trans h4
                                    (heapEvol_of_heap_eq (blockerAbandonReject_heap s8 aid)))))))
                          exact heapEvol_events _ _

theorem heapGet_of_lookupNode {s : DG} {k : Nat} {n : DNode}
    (h : lookupNode s k = some n) : heapGet s k = some n := by
  unfold lookupNode at h
  unfold heapGet
  split at h
  · exact h
  · cases h

theorem heapEvol_extract {s s' : DG} (h : HeapEvol s s') {k : Nat} {n : DNode}
    (hn : heapGet s k = some n) :
    ∃ n', heapGet s' k = some n' ∧ n'.bias = n.bias ∧ n'.confidence = n.confidence ∧
      n'.lastVote = n.lastVote ∧ n'.tx = n.tx ∧ n'.outs ⊆ n.outs ∧ n'.ins ⊆ n.ins := by
  obtain ⟨hd, hv⟩ := h
  cases hx : heapGet s' k with
  | none =>
    rw [(hd k).mpr hx] at hn
    cases hn
  | some n' => exact ⟨n', rfl, hv k n n' hn hx⟩

theorem countersEq_extract {s s' : DG} {k : Nat} (h : CountersEq s s' k) {n : DNode}
    (hn : heapGet s k = some n) :
    ∃ n', heapGet s' k = some n' ∧ n'.bias = n.bias ∧ n'.confidence = n.confidence ∧
      n'.lastVote = n.lastVote := by
  unfold CountersEq at h
  rw [hn] at h
  cases hx : heapGet s' k with
  | none => rw [hx] at h; cases h
  | some n' =>
    rw [hx] at h
    simp only [Option.map_some', Option.some.injEq, Prod.mk.injEq] at h
    exact ⟨n', rfl, h.1, h.2.1, h.2.2⟩

/-- `deferAcceptance` only sets the node's `pendingAccept` flag before
the cascade, so the heap evolves as in the cascades. -/
theorem heapEvol_deferAcceptance (fuel : Nat) (s : DG) (fnId : Nat) (s' : DG)
    (h : deferAcceptance fuel s fnId = some s') : HeapEvol s s' := by
  unfold deferAcceptance at h
  cases hg : heapGet s fnId with
  | none => rw [hg] at h; cases h
  | some n =>
    rw [hg] at h
    simp only at h
    have h1 := (heapEvol_cascades fuel).2.2.2.2.2.2 _ _ _ h
    refine heapEvol_trans (@heapEvol_heapSet _ fnId n { n with pendingAccept := true }
      hg rfl rfl rfl rfl (List.Subset.refl _) (List.Subset.refl _)) ?_
    exact h1

theorem countersEq_heapSet_ne (s : DG) (j k : Nat) (n' : DNode) (hk : k ≠ j) :
    CountersEq s (heapSet s j n') k := by
  unfold CountersEq heapGet heapSet
  simp only [alGet_alSet, hk, if_false]

/-- `redirectEdge` leaves the counters of every node other than the
conflict unchanged (the conflict's confidence is reset). -/
theorem countersEq_redirectEdge (s : DG) (wId y k : Nat) (s' : DG)
    (h : redirectEdge s wId y = some s') (hky : k ≠ y) (hwy : wId ≠ y) :
    CountersEq s s' k := by
  unfold redirectEdge at h
  cases hc : lookupNode s y with
  | none => rw [hc] at h; cases h
  | some conflict =>
    rw [hc] at h
    simp only at h
    cases hw : heapGet s wId with
    | none => rw [hw] at h; cases h
    | some w =>
      rw [hw] at h
      simp only at h
      split at h
      · have step1 : CountersEq s (heapSet s y { conflict with
            confidence := 0, ins := sRemove conflict.ins wId, outs := sAdd conflict.outs wId }) k :=
          countersEq_heapSet_ne s y k _ hky
        have hw2 : heapGet (heapSet s y { conflict with
            confidence := 0, ins := sRemove conflict.ins wId, outs := sAdd conflict.outs wId }) wId = some w := by
          unfold heapGet heapSet
          unfold heapGet at hw
          simp only [alGet_alSet, hwy, if_false]
          exact hw
        split at h
        · cases h
          refine countersEq_trans step1 ?_
          exact countersEq_heapSet _ wId k w _ hw2 rfl rfl rfl
        · cases h
          refine countersEq_trans step1 ?_
          exact countersEq_heapSet _ wId k w _ hw2 rfl rfl rfl
      · cases h
        exact countersEq_refl s k

theorem redirectFold_none (l : List Nat) (wId : Nat) :
    l.foldl (fun acc y => acc.bind (fun s => redirectEdge s wId y)) none = none := by
  induction l with
  | nil => rfl
  | cons a t ih => simpa using ih

theorem countersEq_redirectFold (l : List Nat) :
    ∀ (s : DG) (wId k : Nat), k ∉ l → wId ∉ l → ∀ s',
      l.foldl (fun acc y => acc.bind (fun s => redirectEdge s wId y)) (some s) = some s' →
      CountersEq s s' k := by
  induction l with
  | nil =>
    intro s wId k _ _ s' h
    cases h
    exact countersEq_refl _ k
  | cons y t ih =>
    intro s wId k hkl hwl s' h
    rw [List.foldl_cons] at h
    simp only [Option.some_bind] at h
    cases hre : redirectEdge s wId y with
    | none =>
      rw [hre] at h
      rw [redirectFold_none] at h
      cases h
    | some s1 =>
      rw [hre] at h
      have hky : k ≠ y := fun hk => hkl (hk ▸ List.mem_cons_self y t)
      have hwy : wId ≠ y := fun hk => hwl (hk ▸ List.mem_cons_self y t)
      refine countersEq_trans (countersEq_redirectEdge s wId y k s1 hre hky hwy) ?_
      exact ih s1 wId k (fun hk => hkl (List.mem_cons_of_mem y hk))
        (fun hk => hwl (List.mem_cons_of_mem y hk)) s' h

/-! ## Claims C4 and C9: the per-winner counter update in `RecordPoll` -/

/-- Helper: what one `pollStep` does to the winner's own counters,
including through any acceptance cascades and edge redirection. -/
theorem pollStep_counters (fuel : Nat) (s : DG) (w : Nat) (n : DNode)
    (hn : lookupNode s w = some n) (hself : w ∉ n.outs)
    (s' : DG) (flag : Bool) (h : pollStep fuel s w = some (s', flag)) :
    ∃ n', heapGet s' w = some n' ∧
      n'.lastVote = s.currentVote ∧
      n'.bias = n.bias + 1 ∧
      n'.confidence = (if n.lastVote + 1 ≠ s.currentVote then 0 else n.confidence) + 1 := by
  unfold pollStep at h
  rw [hn] at h
  simp only at h
  generalize hc0 : (if n.lastVote + 1 ≠ s.currentVote then 0 else n.confidence) = c0 at h ⊢
  have hgB : heapGet (heapSet s w { n with
        lastVote := s.currentVote, bias := n.bias + 1, confidence := c0 + 1 }) w =
      some { n with lastVote := s.currentVote, bias := n.bias + 1, confidence := c0 + 1 } := by
    unfold heapGet heapSet
    simp [alGet_alSet]
  split at h
  · -- defer branch
    split at h
    · cases h
    · next s2 hda =>
      have hev : HeapEvol _ s2 := heapEvol_deferAcceptance fuel _ w s2 hda
      obtain ⟨n2, hn2, hb2, hc2, hl2, ht2, ho2, hi2⟩ := heapEvol_extract hev hgB
      split at h
      · cases h
        exact ⟨n2, hn2, hl2, hb2, hc2⟩
      · rw [hn2] at h
        simp only at h
        split at h
        · cases h
          exact ⟨n2, hn2, hl2, hb2, hc2⟩
        · split at h
          · cases h
          · next s3 hredir =>
            cases h
            unfold redirectEdges at hredir
            rw [hn2] at hredir
            simp only at hredir
            have hcc := countersEq_redirectFold n2.outs s2 w w
              (fun hk => hself (ho2 hk)) (fun hk => hself (ho2 hk)) _ hredir
            obtain ⟨n3, hn3, hb3, hc3, hl3⟩ := countersEq_extract hcc hn2
            exact ⟨n3, hn3, hl3.trans hl2, hb3.trans hb2, hc3.trans hc2⟩
  · -- no defer
    rw [hgB] at h
    simp only at h
    split at h
    · cases h
      exact ⟨_, hgB, rfl, rfl, rfl⟩
    · split at h
      · cases h
      · next s3 hredir =>
        cases h
        unfold redirectEdges at hredir
        rw [hgB] at hredir
        simp only at hredir
        have hcc := countersEq_redirectFold n.outs _ w w hself hself _ hredir
        obtain ⟨n3, hn3, hb3, hc3, hl3⟩ := countersEq_extract hcc hgB
        exact ⟨n3, hn3, hl3, hb3, hc3⟩

/-- C4: in `RecordPoll`, for every id `w` of the bag thresholded at
`Alpha` that has a node in the graph when processed: if
`w.lastVote + 1 ≠ currentVote` its confidence is first reset to `0`;
then `w.lastVote` is set to `currentVote`, `w.bias` increases by exactly
one and `w.confidence` increases by exactly one (the node is read back
through the heap because an acceptance cascade may remove it from the
map). -/
theorem recordPoll_winner_update (fuel : Nat) (s : DG) (bag : List (Nat × Nat)) (w : Nat)
    (hw : w ∈ winners s.params.alpha bag) (n : DNode) (hn : lookupNode s w = some n)
    (hself : w ∉ n.outs) (s' : DG) (flag : Bool)
    (h : pollStep fuel s w = some (s', flag)) :
    ∃ n', heapGet s' w = some n' ∧
      n'.lastVote = s.currentVote ∧
      n'.bias = n.bias + 1 ∧
      n'.confidence = (if n.lastVote + 1 ≠ s.currentVote then 0 else n.confidence) + 1 :=
  pollStep_counters fuel s w n hn hself s' flag h

/-- Witness for C4 at a concrete input. -/
theorem recordPoll_winner_update_witness :
    1 ∈ winners pollWitState.params.alpha [(1, 2)] ∧
    lookupNode pollWitState 1 = some pollWitNode ∧
    (1 : Nat) ∉ pollWitNode.outs ∧
    ∃ s' flag, pollStep 1 pollWitState 1 = some (s', flag) ∧
      ∃ n', heapGet s' 1 = some n' ∧
        n'.lastVote = pollWitState.currentVote ∧
        n'.bias = pollWitNode.bias + 1 ∧
        n'.confidence =
          (if pollWitNode.lastVote + 1 ≠ pollWitState.currentVote then 0
            else pollWitNode.confidence) + 1 := by
  refine ⟨by decide, by decide, by decide, ?_⟩
  cases hps : pollStep 1 pollWitState 1 with
  | none => exact absurd hps (by decide)
  | some r =>
    obtain ⟨s1, f1⟩ := r
    exact ⟨s1, f1, rfl, recordPoll_winner_update 1 pollWitState [(1, 2)] 1
      (by decide) pollWitNode (by decide) (by decide) s1 f1 hps⟩

/-- C9 as stated is false: after a vote gap, the next appearance resets
the confidence to `0` and then increments it, so it is `1`, not `0`,
after that poll.  Concretely: tx 1 is added, wins poll 1, is absent
from poll 2's thresholded winners, wins poll 3 — and its confidence
after poll 3 is `1`. -/
theorem confidence_gap_counterexample :
    (1 ∈ winners 1 [(1, 1)]) ∧ (1 ∉ winners 1 ([] : List (Nat × Nat))) ∧
    (execOps 20 (initDG { alpha := 1, betaVirtuous := 5, betaRogue := 5 })
        [.addTx { id := 1, inputs := [101], deps := [] },
         .poll [(1, 1)], .poll [], .poll [(1, 1)]]).bind
      (fun s => (heapGet s 1).map (fun n => n.confidence)) = some 1 ∧
    (1 : Nat) ≠ 0 := by
  refine ⟨by decide, by decide, by decide, by decide⟩

/-- C9 amended: if a tx with a node in the graph missed the previous
poll (`lastVote + 1 ≠ currentVote`), then during the next poll whose
thresholded winners contain it, its confidence is reset to `0` and then
incremented: it equals exactly `1` after that winner is processed. -/
theorem confidence_gap_reset (fuel : Nat) (s : DG) (bag : List (Nat × Nat)) (w : Nat)
    (hw : w ∈ winners s.params.alpha bag) (n : DNode) (hn : lookupNode s w = some n)
    (hself : w ∉ n.outs) (hgap : n.lastVote + 1 ≠ s.currentVote)
    (s' : DG) (flag : Bool) (h : pollStep fuel s w = some (s', flag)) :
    ∃ n', heapGet s' w = some n' ∧ n'.confidence = 1 := by
  obtain ⟨n', hn', _, _, hc⟩ := pollStep_counters fuel s w n hn hself s' flag h
  rw [if_pos hgap] at hc
  exact ⟨n', hn', hc⟩

/-- Witness for the amended C9 at a concrete input. -/
theorem confidence_gap_reset_witness :
    1 ∈ winners gapWitState.params.alpha [(1, 1)] ∧
    lookupNode gapWitState 1 = some gapWitNode ∧
    (1 : Nat) ∉ gapWitNode.outs ∧
    gapWitNode.lastVote + 1 ≠ gapWitState.currentVote ∧
    ∃ s' flag, pollStep 1 gapWitState 1 = some (s', flag) ∧
      ∃ n', heapGet s' 1 = some n' ∧ n'.confidence = 1 := by
  refine ⟨by decide, by decide, by decide, by decide, ?_⟩
  cases hps : pollStep 1 gapWitState 1 with
  | none => exact absurd hps (by decide)
  | some r =>
    obtain ⟨s1, f1⟩ := r
    exact ⟨s1, f1, rfl, confidence_gap_reset 1 gapWitState [(1, 1)] 1
      (by decide) gapWitNode (by decide) (by decide) (by decide) s1 f1 hps⟩

/-! ## Claim C5: `redirectEdge` -/

/-- C5: in `redirectEdges(w)`, for an out-neighbor `y` of `w` with
`w.bias` strictly greater than `y.bias` the edge is inverted —
`y.confidence` becomes `0`, `w` is removed from `y.ins` and added to
`y.outs`, `y` is removed from the preferences, `y` is added to `w.ins`
and removed from `w.outs` — and `w`'s id is inserted into the
preferences exactly when `w.outs` becomes empty; when the biases are
equal the whole state is left unchanged. -/
theorem redirectEdge_spec (s : DG) (wId y : Nat) (w yn : DNode)
    (hw : heapGet s wId = some w) (hy : lookupNode s y = some yn)
    (hne : y ≠ wId) (hmem : y ∈ w.outs) :
    (yn.bias < w.bias →
      ∃ s', redirectEdge s wId y = some s' ∧
        heapGet s' y = some { yn with
          confidence := 0, ins := sRemove yn.ins wId, outs := sAdd yn.outs wId } ∧
        heapGet s' wId = some { w with ins := sAdd w.ins y, outs := sRemove w.outs y } ∧
        y ∉ s'.preferences ∧
        (sRemove w.outs y = [] → wId ∈ s'.preferences) ∧
        (sRemove w.outs y ≠ [] → (wId ∈ s'.preferences ↔ wId ∈ s.preferences))) ∧
    (yn.bias = w.bias → redirectEdge s wId y = some s) := by
  have hwy : wId ≠ y := fun h => hne h.symm
  constructor
  · intro hlt
    unfold redirectEdge
    rw [hy]
    simp only
    rw [hw]
    simp only
    rw [if_pos hlt]
    by_cases hout : sRemove w.outs y = []
    · rw [if_pos hout]
      refine ⟨_, rfl, ?_, ?_, ?_, fun _ => ?_, fun hc => absurd hout hc⟩
      · unfold heapGet heapSet
        simp [alGet_alSet, hne]
      · unfold heapGet heapSet
        simp [alGet_alSet]
      · simp [heapSet, mem_sAdd, mem_sRemove, hne]
      · simp [heapSet, mem_sAdd]
    · rw [if_neg hout]
      refine ⟨_, rfl, ?_, ?_, ?_, fun hc => absurd hc hout, fun _ => ?_⟩
      · unfold heapGet heapSet
        simp [alGet_alSet, hne]
      · unfold heapGet heapSet
        simp [alGet_alSet]
      · simp [heapSet, mem_sRemove]
      · simp [heapSet, mem_sRemove, hwy]
  · intro heqb
    unfold redirectEdge
    rw [hy]
    simp only
    rw [hw]
    simp only
    rw [if_neg (by omega)]

/-- Witness for C5 at a concrete input. -/
theorem redirectEdge_spec_witness :
    heapGet redirWitState 2 = some redirWitW ∧
    lookupNode redirWitState 1 = some redirWitY ∧
    (1 : Nat) ≠ 2 ∧ 1 ∈ redirWitW.outs ∧
    ((redirWitY.bias < redirWitW.bias →
      ∃ s', redirectEdge redirWitState 2 1 = some s' ∧
        heapGet s' 1 = some { redirWitY with
          confidence := 0, ins := sRemove redirWitY.ins 2, outs := sAdd redirWitY.outs 2 } ∧
        heapGet s' 2 = some { redirWitW with
          ins := sAdd redirWitW.ins 1, outs := sRemove redirWitW.outs 1 } ∧
        (1 : Nat) ∉ s'.preferences ∧
        (sRemove redirWitW.outs 1 = [] → 2 ∈ s'.preferences) ∧
        (sRemove redirWitW.outs 1 ≠ [] → (2 ∈ s'.preferences ↔ 2 ∈ redirWitState.preferences))) ∧
    (redirWitY.bias = redirWitW.bias → redirectEdge redirWitState 2 1 = some redirWitState)) :=
  ⟨by decide, by decide, by decide, by decide,
    redirectEdge_spec redirWitState 2 1 redirWitW redirWitY
      (by decide) (by decide) (by decide) (by decide)⟩

/-! ## Claim C8: the error accumulator -/

/-- Once set, the accumulator keeps exactly its first error. -/
def ErrsMono (s s' : DG) : Prop := ∀ e, s.errs = some e → s'.errs = some e

theorem errsMono_refl (s : DG) : ErrsMono s s := fun _ h => h

theorem errsMono_trans {s1 s2 s3 : DG}
    (h1 : ErrsMono s1 s2) (h2 : ErrsMono s2 s3) : ErrsMono s1 s3 :=
  fun e h => h2 e (h1 e h)

theorem errsMono_of_errs_eq {s s' : DG} (h : s'.errs = s.errs) : ErrsMono s s' :=
  fun e he => h.trans he

theorem errsMono_errsAdd (s : DG) (x : Option Nat) : ErrsMono s (errsAdd s x) := by
  intro e he
  unfold errsAdd
  rw [he]
  cases x <;> exact he

theorem removeConflictStep_errs (k : Nat) (s : DG) (nb : Nat) :
    (removeConflictStep k s nb).errs = s.errs := by
  unfold removeConflictStep
  cases lookupNode s nb with
  | none => rfl
  | some nn =>
    simp only
    split <;> rfl

theorem removeConflict_errs (nbs : List Nat) (s : DG) (k : Nat) :
    (removeConflict s k nbs).errs = s.errs := by
  induction nbs generalizing s with
  | nil => rfl
  | cons a t ih =>
    rw [removeConflict_cons, ih, removeConflictStep_errs]

theorem abandonAccepter_errs (s : DG) (aid : Nat) :
    (abandonAccepter s aid).errs = s.errs := by
  unfold abandonAccepter
  cases alGet s.accepters aid <;> rfl

theorem foldl_abandonAccepter_errs (l : List Nat) (s : DG) :
    (l.foldl abandonAccepter s).errs = s.errs := by
  induction l generalizing s with
  | nil => rfl
  | cons a t ih => rw [List.foldl_cons, ih, abandonAccepter_errs]

theorem blockerAbandonAccept_errs (s : DG) (k : Nat) :
    (blockerAbandonAccept s k).errs = s.errs := by
  unfold blockerAbandonAccept
  rw [foldl_abandonAccepter_errs]

theorem txAccept_errs (s : DG) (t : Tx) : (txAccept s t).1.errs = s.errs := by
  unfold txAccept
  cases t.acceptErr <;> rfl

theorem txReject_errs (s : DG) (t : Tx) : (txReject s t).1.errs = s.errs := by
  unfold txReject
  cases t.rejectErr <;> rfl

/-- Once an error is stored, every cascade keeps it. -/
theorem errsMono_cascades (fuel : Nat) :
    (∀ s k0 res, rejectOne fuel s k0 = some res → ErrsMono s res.1) ∧
    (∀ s l res, rejectList fuel s l = some res → ErrsMono s res.1) ∧
    (∀ s k0 s', blockerFulfillReject fuel s k0 = some s' → ErrsMono s s') ∧
    (∀ s rids s', goRejectors fuel s rids = some s' → ErrsMono s s') ∧
    (∀ s k0 s', blockerFulfillAccept fuel s k0 = some s' → ErrsMono s s') ∧
    (∀ s k0 aids s', goAccepters fuel s k0 aids = some s' → ErrsMono s s') ∧
    (∀ s aid s', acceptUpdate fuel s aid = some s' → ErrsMono s s') := by
  induction fuel with
  | zero =>
    refine ⟨?_, ?_, ?_, ?_, ?_, ?_, ?_⟩
    · intro s k0 res h; unfold rejectOne at h; cases h
    · intro s l res h; unfold rejectList at h; cases h
    · intro s k0 s' h; unfold blockerFulfillReject at h; cases h
    · intro s rids s' h; unfold goRejectors at h; cases h
    · intro s k0 s' h; unfold blockerFulfillAccept at h; cases h
    · intro s k0 aids s' h; unfold goAccepters at h; cases h
    · intro s aid s' h; unfold acceptUpdate at h; cases h
  | succ fuel ih =>
    obtain ⟨ihRO, ihRL, ihBFR, ihGR, ihBFA, ihGA, ihAU⟩ := ih
    refine ⟨?_, ?_, ?_, ?_, ?_, ?_, ?_⟩
    · -- rejectOne
      intro s k0 res h
      unfold rejectOne at h
      simp only at h
      cases hlk : lookupNode s k0 with
      | none => rw [hlk] at h; cases h
      | some n =>
        rw [hlk] at h
        simp only at h
        split at h
        · next e heq =>
          cases h
          refine errsMono_of_errs_eq ?_
          rw [txReject_errs, removeConflict_errs, removeConflict_errs]
        · next heq =>
          split at h
          · cases h
          · next s7 hbfr =>
            cases h
            have h1 := ihBFR _ k0 _ hbfr
            refine errsMono_trans (errsMono_of_errs_eq ?_) h1
            rw [blockerAbandonAccept_errs]
            show _ = s.errs
            rw [txReject_errs, removeConflict_errs, removeConflict_errs]
    · -- rejectList
      intro s l res h
      unfold rejectList at h
      cases l with
      | nil => cases h; exact errsMono_refl s
      | cons k0 rest =>
        simp only at h
        cases hro : rejectOne fuel s k0 with
        | none => rw [hro] at h; cases h
        | some r =>
          rw [hro] at h
          simp only at h
          cases hr2 : r.2 with
          | some e => rw [hr2] at h; cases h; exact ihRO _ _ r hro
          | none =>
            rw [hr2] at h
            exact errsMono_trans (ihRO _ _ r hro) (ihRL _ _ _ h)
    · -- blockerFulfillReject
      intro s k0 s' h
      unfold blockerFulfillReject at h
      simp only at h
      have h1 := ihGR _ _ s' h
      exact fun e he => h1 e he
    · -- goRejectors
      intro s rids s' h
      unfold goRejectors at h
      cases rids with
      | nil => cases h; exact errsMono_refl s
      | cons rid rest =>
        simp only at h
        cases hrj : alGet s.rejectors rid with
        | none => rw [hrj] at h; exact ihGR _ _ _ h
        | some rejected =>
          rw [hrj] at h
          simp only at h
          split at h
          · exact ihGR _ _ _ h
          · split at h
            · cases h
            · next r hrl =>
              have h1 := ihRL _ _ _ hrl
              have h2 := ihGR _ _ _ h
              refine errsMono_trans (fun e he => h1 e he) (errsMono_trans ?_ h2)
              exact errsMono_errsAdd _ _
    · -- blockerFulfillAccept
      intro s k0 s' h
      unfold blockerFulfillAccept at h
      simp only at h
      have h1 := ihGA _ k0 _ s' h
      exact fun e he => h1 e he
    · -- goAccepters
      intro s k0 aids s' h
      unfold goAccepters at h
      cases aids with
      | nil => cases h; exact errsMono_refl s
      | cons aid rest =>
        simp only at h
        cases hac : alGet s.accepters aid with
        | none => rw [hac] at h; exact ihGA _ _ _ _ h
        | some a =>
          rw [hac] at h
          simp only at h
          split at h
          · cases h
          · next s2 hau =>
            have h1 := ihAU _ _ _ hau
            have h2 := ihGA _ _ _ _ h
            exact errsMono_trans (fun e he => h1 e he) h2
    · -- acceptUpdate
      intro s aid s' h
      unfold acceptUpdate at h
      simp only at h
      cases hac : alGet s.accepters aid with
      | none => rw [hac] at h; cases h; exact errsMono_refl s
      | some a =>
        rw [hac] at h
        simp only at h
        split at h
        · cases h; exact errsMono_refl s
        · cases hhg : heapGet s aid with
          | none => rw [hhg] at h; cases h; exact errsMono_refl s
          | some n =>
            rw [hhg] at h
            simp only at h
            split at h
            · cases h
            · next r1 hrl1 =>
              have h1 := ihRL _ _ _ hrl1
              split at h
              · next e heq1 =>
                cases h
                exact errsMono_trans (fun e' he' => h1 e' he') (errsMono_errsAdd _ _)
              · next heq1 =>
                split at h
                · cases h
                · next r2 hrl2 =>
                  have h2 := ihRL _ _ _ hrl2
                  split at h
                  · next e heq2 =>
                    cases h
                    exact errsMono_trans (fun e' he' => h1 e' he')
                      (errsMono_trans h2 (errsMono_errsAdd _ _))
                  · next heq2 =>
                    split at h
                    · next e heq3 =>
                      cases h
                      refine errsMono_trans (fun e' he' => h1 e' he')
                        (errsMono_trans h2 (errsMono_trans
                          (errsMono_of_errs_eq (txAccept_errs r2.1 n.tx)) (errsMono_errsAdd _ _)))
                    · next heq3 =>
                      cases hn2 : heapGet (txAccept r2.1 n.tx).1 aid with
                      | none =>
                        rw [hn2] at h
                        simp only at h
                        split at h
                        · cases h
                        · next s8 hbfa =>
                          cases h
                          have h4 := ihBFA _ aid _ hbfa
                          refine errsMono_trans (fun e' he' => h1 e' he')
                            (errsMono_trans h2 (errsMono_trans
                              (errsMono_of_errs_eq (txAccept_errs r2.1 n.tx))
                              (errsMono_trans (fun e' he' => h4 e' he')
                                (errsMono_of_errs_eq rfl))))
                      | some n2 =>
                        rw [hn2] at h
                        simp only at h
                        split at h
                        · cases h
                        · next s8 hbfa =>
                          cases h
                          have h4 := ihBFA _ aid _ hbfa
                          refine errsMono_trans (fun e' he' => h1 e' he')
                            (errsMono_trans h2 (errsMono_trans
                              (errsMono_of_errs_eq (txAccept_errs r2.1 n.tx))
                              (errsMono_trans (fun e' he' => h4 e' he')
                                (errsMono_of_errs_eq rfl))))

end Snowstorm

namespace Snowstorm

theorem goRejectors_nil (fuel : Nat) (s : DG) : goRejectors (fuel + 1) s [] = some s := by
  show goRejectors (Nat.succ fuel) s [] = some s
  rw [goRejectors.eq_def]

theorem goAccepters_nil (fuel : Nat) (s : DG) (k : Nat) :
    goAccepters (fuel + 1) s k [] = some s := by
  show goAccepters (Nat.succ fuel) s k [] = some s
  rw [goAccepters.eq_def]

theorem rejectList_nil (fuel : Nat) (s : DG) : rejectList (fuel + 1) s [] = some (s, none) := by
  show rejectList (Nat.succ fuel) s [] = some (s, none)
  rw [rejectList.eq_def]

end Snowstorm

namespace Snowstorm

theorem blockerAbandonAccept_empty (s : DG) (k : Nat) (h : s.pendAcc = []) :
    blockerAbandonAccept s k = s := by
  obtain ⟨p, hp, mi, ux, vs, vv, pf, cv, ac, rj, pa, pr, er, st, ev⟩ := s
  simp only at h
  subst h
  simp only [blockerAbandonAccept, alGet, alErase, List.filter_nil, Option.getD, List.foldl]

theorem blockerAbandonReject_empty (s : DG) (k : Nat) (h : s.pendRej = []) :
    blockerAbandonReject s k = s := by
  obtain ⟨p, hp, mi, ux, vs, vv, pf, cv, ac, rj, pa, pr, er, st, ev⟩ := s
  simp only at h
  subst h
  simp only [blockerAbandonReject, alErase, List.filter_nil]

theorem blockerFulfillReject_empty (fuel : Nat) (s : DG) (k : Nat) (h : s.pendRej = []) :
    blockerFulfillReject (fuel + 2) s k = some s := by
  obtain ⟨p, hp, mi, ux, vs, vv, pf, cv, ac, rj, pa, pr, er, st, ev⟩ := s
  simp only at h
  subst h
  show blockerFulfillReject (Nat.succ (fuel + 1)) _ k = _
  rw [blockerFulfillReject.eq_def]
  simp only [alGet, alErase, List.filter_nil, Option.getD]
  exact goRejectors_nil fuel _

theorem blockerFulfillAccept_empty (fuel : Nat) (s : DG) (k : Nat) (h : s.pendAcc = []) :
    blockerFulfillAccept (fuel + 2) s k = some s := by
  obtain ⟨p, hp, mi, ux, vs, vv, pf, cv, ac, rj, pa, pr, er, st, ev⟩ := s
  simp only at h
  subst h
  show blockerFulfillAccept (Nat.succ (fuel + 1)) _ k = _
  rw [blockerFulfillAccept.eq_def]
  simp only [alGet, alErase, List.filter_nil, Option.getD]
  exact goAccepters_nil fuel _ k

end Snowstorm

namespace Snowstorm

theorem rejectOne_ok (fuel : Nat) (s : DG) (k : Nat) (n : DNode) (r2 : DG)
    (hlk : lookupNode s k = some n)
    (hrj : txReject (removeConflict (removeConflict
        { s with mapIds := sRemove s.mapIds k, preferences := sRemove s.preferences k }
        k n.ins) k n.outs) n.tx = (r2, none))
    (hpa : r2.pendAcc = [])
    (hpr : r2.pendRej = []) :
    rejectOne (fuel + 3) s k =
      some ({ r2 with events := r2.events ++ [.reject k] }, none) := by
  show rejectOne (Nat.succ (fuel + 2)) s k = _
  rw [rejectOne.eq_def]
  simp only [hlk, hrj]
  rw [blockerAbandonAccept_empty]
  · rw [blockerFulfillReject_empty]
    · simp only [hpr]
  · simp only [hpa]

end Snowstorm

namespace Snowstorm

theorem rejectOne_err (fuel : Nat) (s : DG) (k : Nat) (n : DNode) (r2 : DG) (e : Nat)
    (hlk : lookupNode s k = some n)
    (hrj : txReject (removeConflict (removeConflict
        { s with mapIds := sRemove s.mapIds k, preferences := sRemove s.preferences k }
        k n.ins) k n.outs) n.tx = (r2, some e)) :
    rejectOne (fuel + 1) s k = some (r2, some e) := by
  show rejectOne (Nat.succ fuel) s k = _
  rw [rejectOne.eq_def]
  simp only [hlk, hrj]

theorem rejectList_one (fuel : Nat) (s r : DG) (k : Nat)
    (h : rejectOne (fuel + 1) s k = some (r, none)) :
    rejectList (fuel + 2) s [k] = some (r, none) := by
  show rejectList (Nat.succ (fuel + 1)) s [k] = _
  rw [rejectList.eq_def]
  simp only [h]
  exact rejectList_nil fuel r

theorem rejectList_cons_err (fuel : Nat) (s r : DG) (k : Nat) (rest : List Nat) (e : Nat)
    (h : rejectOne fuel s k = some (r, some e)) :
    rejectList (fuel + 1) s (k :: rest) = some (r, some e) := by
  show rejectList (Nat.succ fuel) s (k :: rest) = _
  rw [rejectList.eq_def]
  simp only [h]

end Snowstorm

namespace Snowstorm

theorem acceptUpdate_ok (fuel : Nat) (s : DG) (aid : Nat) (a : Accepter) (n n2 : DNode)
    (r1 r2 r3 s8 : DG)
    (ha : alGet s.accepters aid = some a)
    (hcond : ¬(a.rejected = true ∨ a.deps ≠ [] ∨ s.errs ≠ none))
    (hn : heapGet s aid = some n)
    (hins : rejectList (fuel + 2) { s with
        mapIds := sRemove s.mapIds aid,
        utxos := n.tx.inputs.foldl (fun u i => alErase u i) s.utxos,
        virtuous := sRemove s.virtuous aid,
        preferences := sRemove s.preferences aid } n.ins = some (r1, none))
    (houts : rejectList (fuel + 2) r1 n.outs = some (r2, none))
    (hacc : txAccept r2 n.tx = (r3, none))
    (hn2 : heapGet r3 aid = some n2)
    (hbfa : blockerFulfillAccept (fuel + 2) { r3 with
        heap := alSet r3.heap aid { n2 with accepted := true },
        events := r3.events ++ [.accept aid] } aid = some s8)
    (hpr8 : s8.pendRej = []) :
    acceptUpdate (fuel + 3) s aid = some s8 := by
  show acceptUpdate (Nat.succ (fuel + 2)) s aid = _
  rw [acceptUpdate.eq_def]
  simp only [ha, hn, if_neg hcond, hins, houts, hacc, hn2, heapSet, hbfa]
  rw [blockerAbandonReject_empty _ _ hpr8]

end Snowstorm

namespace Snowstorm

theorem acceptUpdate_err_outs (fuel : Nat) (s : DG) (aid : Nat) (a : Accepter) (n : DNode)
    (r1 r2 : DG) (e : Nat)
    (ha : alGet s.accepters aid = some a)
    (hcond : ¬(a.rejected = true ∨ a.deps ≠ [] ∨ s.errs ≠ none))
    (hn : heapGet s aid = some n)
    (hins : rejectList (fuel + 1) { s with
        mapIds := sRemove s.mapIds aid,
        utxos := n.tx.inputs.foldl (fun u i => alErase u i) s.utxos,
        virtuous := sRemove s.virtuous aid,
        preferences := sRemove s.preferences aid } n.ins = some (r1, none))
    (houts : rejectList (fuel + 1) r1 n.outs = some (r2, some e)) :
    acceptUpdate (fuel + 2) s aid = some (errsAdd r2 (some e)) := by
  show acceptUpdate (Nat.succ (fuel + 1)) s aid = _
  rw [acceptUpdate.eq_def]
  simp only [ha, hn, if_neg hcond, hins, houts]

theorem deferAcceptance_eval (fuel : Nat) (s : DG) (fnId : Nat) (n : DNode) (res : Option DG)
    (hn : heapGet s fnId = some n)
    (hdeps : n.tx.deps = [])
    (hau : acceptUpdate fuel { s with
        heap := alSet s.heap fnId { n with pendingAccept := true },
        virtuousVoting := sRemove s.virtuousVoting fnId,
        accepters := alSet s.accepters fnId ⟨[], false⟩ } fnId = res) :
    deferAcceptance fuel s fnId = res := by
  rw [deferAcceptance]
  simp only [hn, hdeps, List.filter_nil, List.foldl_nil, heapSet]
  exact hau

end Snowstorm

namespace Snowstorm

theorem pollStep_hit_acc (fuel : Nat) (s : DG) (w : Nat) (n n2 : DNode) (c0 : Nat) (sd : DG)
    (hlk : lookupNode s w = some n)
    (hc0 : (if n.lastVote + 1 ≠ s.currentVote then 0 else n.confidence) = c0)
    (hcond : ¬({ n with
        lastVote := s.currentVote, bias := n.bias + 1,
        confidence := c0 + 1 } : DNode).pendingAccept = true ∧
      ((¬({ n with
          lastVote := s.currentVote, bias := n.bias + 1,
          confidence := c0 + 1 } : DNode).rogue = true ∧
        s.params.betaVirtuous ≤ c0 + 1) ∨ s.params.betaRogue ≤ c0 + 1))
    (hda : deferAcceptance fuel { s with
        heap := alSet s.heap w { n with
          lastVote := s.currentVote, bias := n.bias + 1, confidence := c0 + 1 } } w = some sd)
    (herrs : sd.errs = none)
    (hn2 : heapGet sd w = some n2)
    (hacc : n2.accepted = true) :
    pollStep fuel s w = some (sd, false) := by
  rw [pollStep]
  simp only [hlk, hc0, heapSet]
  rw [if_pos hcond]
  simp only [hda, herrs, ne_eq, not_true_eq_false, if_neg, hn2, hacc, if_pos]
  simp only [reduceIte]

end Snowstorm

namespace Snowstorm

theorem pollStep_hit_err (fuel : Nat) (s : DG) (w : Nat) (n : DNode) (c0 : Nat) (sd : DG) (e : Nat)
    (hlk : lookupNode s w = some n)
    (hc0 : (if n.lastVote + 1 ≠ s.currentVote then 0 else n.confidence) = c0)
    (hcond : ¬({ n with
        lastVote := s.currentVote, bias := n.bias + 1,
        confidence := c0 + 1 } : DNode).pendingAccept = true ∧
      ((¬({ n with
          lastVote := s.currentVote, bias := n.bias + 1,
          confidence := c0 + 1 } : DNode).rogue = true ∧
        s.params.betaVirtuous ≤ c0 + 1) ∨ s.params.betaRogue ≤ c0 + 1))
    (hda : deferAcceptance fuel { s with
        heap := alSet s.heap w { n with
          lastVote := s.currentVote, bias := n.bias + 1, confidence := c0 + 1 } } w = some sd)
    (herrs : sd.errs = some e) :
    pollStep fuel s w = some (sd, true) := by
  rw [pollStep]
  simp only [hlk, hc0, heapSet]
  rw [if_pos hcond]
  simp only [hda, herrs, ne_eq, reduceCtorEq, not_false_eq_true, if_pos]

theorem pollLoop_one (fuel : Nat) (s r : DG) (w : Nat) (b : Bool)
    (h : pollStep fuel s w = some (r, b)) :
    pollLoop fuel s [w] = some (r, r.errs) := by
  cases b <;> simp only [pollLoop, h, Bool.false_eq_true, reduceIte, if_pos]

theorem recordPoll_eval (fuel : Nat) (s : DG) (bag : List (Nat × Nat)) (ws : List Nat)
    (res : Option (DG × Option Nat))
    (hw : winners s.params.alpha bag = ws)
    (h : pollLoop fuel { s with currentVote := s.currentVote + 1 } ws = res) :
    recordPoll fuel s bag = res := by
  rw [recordPoll]
  simp only [hw]
  exact h

end Snowstorm

namespace Snowstorm

def p10C : Params := { alpha := 1, betaVirtuous := 1, betaRogue := 1 }

def c10s1 : DG :=
  { params := p10C,
    heap := [(1, { tx := txA10 })],
    mapIds := [1],
    utxos := [(101, [1])],
    virtuous := [1],
    virtuousVoting := [1],
    preferences := [1],
    rejectors := [(1, false)],
    events := [.issue 1] }

def c10s2 : DG :=
  { params := p10C,
    heap := [(1, { rogue := true, ins := [2], tx := txA10 }),
             (2, { rogue := true, outs := [1], tx := txB10 })],
    mapIds := [1, 2],
    utxos := [(101, [1, 2]), (102, [2])],
    preferences := [1],
    rejectors := [(1, false), (2, false)],
    events := [.issue 1, .issue 2] }

def sa10 : DG := { c10s2 with currentVote := 1 }

def n10a : DNode := { rogue := true, ins := [2], tx := txA10 }

def n10b : DNode := { n10a with lastVote := 1, bias := 1, confidence := 1 }

def sb10 : DG := { sa10 with heap := alSet sa10.heap 1 n10b }

def n10c : DNode := { n10b with pendingAccept := true }

def sc10 : DG := { sb10 with
  heap := alSet sb10.heap 1 n10c,
  virtuousVoting := sRemove sb10.virtuousVoting 1,
  accepters := alSet sb10.accepters 1 ⟨[], false⟩ }

def sf10 : DG := { sc10 with
  mapIds := sRemove sc10.mapIds 1,
  utxos := n10c.tx.inputs.foldl (fun u i => alErase u i) sc10.utxos,
  virtuous := sRemove sc10.virtuous 1,
  preferences := sRemove sc10.preferences 1 }

def n10d : DNode := { rogue := true, outs := [1], tx := txB10 }

def sh10 : DG :=
  (txReject (removeConflict (removeConflict { sf10 with
    mapIds := sRemove sf10.mapIds 2,
    preferences := sRemove sf10.preferences 2 } 2 n10d.ins) 2 n10d.outs) n10d.tx).1

def si10 : DG := { sh10 with events := sh10.events ++ [.reject 2] }

def sj10 : DG := (txAccept si10 n10c.tx).1

def sl10 : DG := { sj10 with
  heap := alSet sj10.heap 1 { n10c with accepted := true },
  events := sj10.events ++ [.accept 1] }

theorem c10_rejectOne : rejectOne 4 sf10 2 = some (si10, none) :=
  rejectOne_ok 1 sf10 2 n10d sh10 rfl rfl rfl rfl

theorem c10_rejectList : rejectList 5 sf10 [2] = some (si10, none) :=
  rejectList_one 3 sf10 si10 2 c10_rejectOne

theorem c10_acceptUpdate : acceptUpdate 6 sc10 1 = some sl10 :=
  acceptUpdate_ok 3 sc10 1 ⟨[], false⟩ n10c n10c si10 si10 sj10 sl10
    rfl (by decide) rfl c10_rejectList (rejectList_nil 4 si10) rfl rfl
    (blockerFulfillAccept_empty 3 sl10 1 rfl) rfl

theorem c10_deferAcceptance : deferAcceptance 6 sb10 1 = some sl10 :=
  deferAcceptance_eval 6 sb10 1 n10b (some sl10) rfl rfl c10_acceptUpdate

theorem c10_pollStep : pollStep 6 sa10 1 = some (sl10, false) :=
  pollStep_hit_acc 6 sa10 1 n10a { n10c with accepted := true } 0 sl10
    rfl rfl (by decide) c10_deferAcceptance rfl rfl rfl

theorem c10_recordPoll : recordPoll 6 c10s2 [(1, 1)] = some (sl10, sl10.errs) :=
  recordPoll_eval 6 c10s2 [(1, 1)] [1] (some (sl10, sl10.errs)) rfl
    (pollLoop_one 6 sa10 sl10 1 false c10_pollStep)

theorem c10_add1 : add (initDG p10C) txA10 = some (c10s1, none) := rfl

theorem c10_add2 : add c10s1 txB10 = some (c10s2, none) := rfl

theorem c10_exec : execOps 6 (initDG p10C) [.addTx txA10, .addTx txB10, .poll [(1, 1)]] =
    some sl10 := by
  simp only [execOps, stepOp, c10_add1, c10_add2, c10_recordPoll, Option.map_some']

end Snowstorm

namespace Snowstorm

/-- A second spender of UTXO 101, submitted after tx 1 was accepted. -/
def txD1 : Tx := { id := 2, inputs := [101], deps := [] }

def sa1 : DG := { c10s1 with currentVote := 1 }

def n1a : DNode := { tx := txA10 }

def n1b : DNode := { n1a with lastVote := 1, bias := 1, confidence := 1 }

def sb1 : DG := { sa1 with heap := alSet sa1.heap 1 n1b }

def n1c : DNode := { n1b with pendingAccept := true }

def sc1 : DG := { sb1 with
  heap := alSet sb1.heap 1 n1c,
  virtuousVoting := sRemove sb1.virtuousVoting 1,
  accepters := alSet sb1.accepters 1 ⟨[], false⟩ }

def sf1 : DG := { sc1 with
  mapIds := sRemove sc1.mapIds 1,
  utxos := n1c.tx.inputs.foldl (fun u i => alErase u i) sc1.utxos,
  virtuous := sRemove sc1.virtuous 1,
  preferences := sRemove sc1.preferences 1 }

def sj1 : DG := (txAccept sf1 n1c.tx).1

def sl1 : DG := { sj1 with
  heap := alSet sj1.heap 1 { n1c with accepted := true },
  events := sj1.events ++ [.accept 1] }

theorem c1_acceptUpdate : acceptUpdate 6 sc1 1 = some sl1 :=
  acceptUpdate_ok 3 sc1 1 ⟨[], false⟩ n1c n1c sf1 sf1 sj1 sl1
    rfl (by decide) rfl (rejectList_nil 4 sf1) (rejectList_nil 4 sf1) rfl rfl
    (blockerFulfillAccept_empty 3 sl1 1 rfl) rfl

theorem c1_deferAcceptance : deferAcceptance 6 sb1 1 = some sl1 :=
  deferAcceptance_eval 6 sb1 1 n1b (some sl1) rfl rfl c1_acceptUpdate

theorem c1_pollStep : pollStep 6 sa1 1 = some (sl1, false) :=
  pollStep_hit_acc 6 sa1 1 n1a { n1c with accepted := true } 0 sl1
    rfl rfl (by decide) c1_deferAcceptance rfl rfl rfl

theorem c1_poll1 : recordPoll 6 c10s1 [(1, 1)] = some (sl1, sl1.errs) :=
  recordPoll_eval 6 c10s1 [(1, 1)] [1] (some (sl1, sl1.errs)) rfl
    (pollLoop_one 6 sa1 sl1 1 false c1_pollStep)

/-- The engine state after tx 2 (spending UTXO 101 again) is added:
the purged UTXO index records no conflict, so tx 2 is virtuous. -/
def sm1 : DG := { sl1 with
  heap := alSet sl1.heap 2 { tx := txD1 },
  mapIds := [2],
  utxos := [(101, [2])],
  virtuous := [2],
  virtuousVoting := [2],
  preferences := [2],
  rejectors := alSet sl1.rejectors 2 false,
  events := sl1.events ++ [.issue 2] }

theorem c1_add2 : add sl1 txD1 = some (sm1, none) := rfl

def ta1 : DG := { sm1 with currentVote := 2 }

def m1a : DNode := { tx := txD1 }

def m1b : DNode := { m1a with lastVote := 2, bias := 1, confidence := 1 }

def tb1 : DG := { ta1 with heap := alSet ta1.heap 2 m1b }

def m1c : DNode := { m1b with pendingAccept := true }

def tc1 : DG := { tb1 with
  heap := alSet tb1.heap 2 m1c,
  virtuousVoting := sRemove tb1.virtuousVoting 2,
  accepters := alSet tb1.accepters 2 ⟨[], false⟩ }

def tf1 : DG := { tc1 with
  mapIds := sRemove tc1.mapIds 2,
  utxos := m1c.tx.inputs.foldl (fun u i => alErase u i) tc1.utxos,
  virtuous := sRemove tc1.virtuous 2,
  preferences := sRemove tc1.preferences 2 }

def tj1 : DG := (txAccept tf1 m1c.tx).1

def tl1 : DG := { tj1 with
  heap := alSet tj1.heap 2 { m1c with accepted := true },
  events := tj1.events ++ [.accept 2] }

theorem c1_acceptUpdate2 : acceptUpdate 6 tc1 2 = some tl1 :=
  acceptUpdate_ok 3 tc1 2 ⟨[], false⟩ m1c m1c tf1 tf1 tj1 tl1
    rfl (by decide) rfl (rejectList_nil 4 tf1) (rejectList_nil 4 tf1) rfl rfl
    (blockerFulfillAccept_empty 3 tl1 2 rfl) rfl

theorem c1_deferAcceptance2 : deferAcceptance 6 tb1 2 = some tl1 :=
  deferAcceptance_eval 6 tb1 2 m1b (some tl1) rfl rfl c1_acceptUpdate2

theorem c1_pollStep2 : pollStep 6 ta1 2 = some (tl1, false) :=
  pollStep_hit_acc 6 ta1 2 m1a { m1c with accepted := true } 0 tl1
    rfl rfl (by decide) c1_deferAcceptance2 rfl rfl rfl

theorem c1_poll2 : recordPoll 6 sm1 [(2, 1)] = some (tl1, tl1.errs) :=
  recordPoll_eval 6 sm1 [(2, 1)] [2] (some (tl1, tl1.errs)) rfl
    (pollLoop_one 6 ta1 tl1 2 false c1_pollStep2)

theorem c1_exec : execOps 6 (initDG p10C)
    [.addTx txA10, .poll [(1, 1)], .addTx txD1, .poll [(2, 1)]] = some tl1 := by
  simp only [execOps, stepOp, c10_add1, c1_poll1, c1_add2, c1_poll2, Option.map_some']

end Snowstorm

namespace Snowstorm

def c8s1 : DG :=
  { params := p10C,
    heap := [(11, { tx := txR8 })],
    mapIds := [11],
    utxos := [(201, [11])],
    virtuous := [11],
    virtuousVoting := [11],
    preferences := [11],
    rejectors := [(11, false)],
    events := [.issue 11] }

def c8s2 : DG :=
  { params := p10C,
    heap := [(11, { rogue := true, ins := [12], tx := txR8 }),
             (12, { rogue := true, outs := [11], tx := txZ8 })],
    mapIds := [11, 12],
    utxos := [(201, [11, 12]), (202, [12])],
    preferences := [11],
    rejectors := [(11, false), (12, false)],
    events := [.issue 11, .issue 12] }

def c8s3 : DG :=
  { params := p10C,
    heap := [(11, { rogue := true, ins := [12, 13], tx := txR8 }),
             (12, { rogue := true, ins := [13], outs := [11], tx := txZ8 }),
             (13, { rogue := true, outs := [11, 12], tx := txF8 })],
    mapIds := [11, 12, 13],
    utxos := [(201, [11, 12, 13]), (202, [12, 13])],
    preferences := [11],
    rejectors := [(11, false), (12, false), (13, false)],
    events := [.issue 11, .issue 12, .issue 13] }

theorem c8_add1 : add (initDG p10C) txR8 = some (c8s1, none) := rfl

theorem c8_add2 : add c8s1 txZ8 = some (c8s2, none) := rfl

theorem c8_add3 : add c8s2 txF8 = some (c8s3, none) := rfl

def sa8 : DG := { c8s3 with currentVote := 1 }

def n8f : DNode := { rogue := true, outs := [11, 12], tx := txF8 }

def n8g : DNode := { n8f with lastVote := 1, bias := 1, confidence := 1 }

def sb8 : DG := { sa8 with heap := alSet sa8.heap 13 n8g }

def n8h : DNode := { n8g with pendingAccept := true }

def sc8 : DG := { sb8 with
  heap := alSet sb8.heap 13 n8h,
  virtuousVoting := sRemove sb8.virtuousVoting 13,
  accepters := alSet sb8.accepters 13 ⟨[], false⟩ }

def sf8 : DG := { sc8 with
  mapIds := sRemove sc8.mapIds 13,
  utxos := n8h.tx.inputs.foldl (fun u i => alErase u i) sc8.utxos,
  virtuous := sRemove sc8.virtuous 13,
  preferences := sRemove sc8.preferences 13 }

def n8a : DNode := { rogue := true, ins := [12, 13], tx := txR8 }

def sg8 : DG :=
  (txReject (removeConflict (removeConflict { sf8 with
    mapIds := sRemove sf8.mapIds 11,
    preferences := sRemove sf8.preferences 11 } 11 n8a.ins) 11 n8a.outs) n8a.tx).1

def sh8 : DG := errsAdd sg8 (some 7)

theorem c8_rejectOne : rejectOne 4 sf8 11 = some (sg8, some 7) :=
  rejectOne_err 3 sf8 11 n8a sg8 7 rfl rfl

theorem c8_rejectList : rejectList 5 sf8 [11, 12] = some (sg8, some 7) :=
  rejectList_cons_err 4 sf8 sg8 11 [12] 7 c8_rejectOne

theorem c8_acceptUpdate : acceptUpdate 6 sc8 13 = some sh8 :=
  acceptUpdate_err_outs 4 sc8 13 ⟨[], false⟩ n8h sf8 sg8 7
    rfl (by decide) rfl (rejectList_nil 4 sf8) c8_rejectList

theorem c8_deferAcceptance : deferAcceptance 6 sb8 13 = some sh8 :=
  deferAcceptance_eval 6 sb8 13 n8g (some sh8) rfl rfl c8_acceptUpdate

theorem c8_pollStep : pollStep 6 sa8 13 = some (sh8, true) :=
  pollStep_hit_err 6 sa8 13 n8f 0 sh8 7 rfl rfl (by decide) c8_deferAcceptance rfl

theorem c8_recordPoll : recordPoll 6 c8s3 [(13, 1)] = some (sh8, sh8.errs) :=
  recordPoll_eval 6 c8s3 [(13, 1)] [13] (some (sh8, sh8.errs)) rfl
    (pollLoop_one 6 sa8 sh8 13 true c8_pollStep)

theorem c8_exec : execOps 6 (initDG p10C)
    [.addTx txR8, .addTx txZ8, .addTx txF8, .poll [(13, 1)]] = some sh8 := by
  simp only [execOps, stepOp, c8_add1, c8_add2, c8_add3, c8_recordPoll, Option.map_some']

theorem c8_errs : sh8.errs = some 7 := rfl

end Snowstorm

namespace Snowstorm

/-- A transaction reusing id 13 with a fresh input, submitted after the
aborted acceptance of the original tx 13. -/
def txG3 : Tx := { id := 13, inputs := [203], deps := [] }

/-- The engine state after re-adding id 13: its old edge into node 12
survives while the fresh node 13 carries no reverse edge. -/
def sv3 : DG := { sh8 with
  heap := alSet sh8.heap 13 { tx := txG3 },
  mapIds := sAdd sh8.mapIds 13,
  utxos := alSet sh8.utxos 203 [13],
  virtuous := sAdd sh8.virtuous 13,
  virtuousVoting := sAdd sh8.virtuousVoting 13,
  preferences := sAdd sh8.preferences 13,
  rejectors := alSet sh8.rejectors 13 false,
  events := sh8.events ++ [.issue 13] }

theorem c3_readd : add sh8 txG3 = some (sv3, some 7) := rfl

theorem c3_exec : execOps 6 (initDG p10C)
    [.addTx txR8, .addTx txZ8, .addTx txF8, .poll [(13, 1)], .addTx txG3] = some sv3 := by
  simp only [execOps, stepOp, c8_add1, c8_add2, c8_add3, c8_recordPoll, c3_readd,
    Option.map_some']

/-- C10 is violated by the code: `reject` and `Update` never purge a
rejected spender from the UTXO index, so after the trace below the
spender set of UTXO 102 still holds tx 2 although tx 2's node was
deleted from the tx map; `Add` of tx 3 (which spends UTXO 102) then
performs the unguarded conflicting-spender lookup on the missing node —
a nil-pointer dereference in the Go code, `none` in the model. -/
theorem stale_spender_panics :
    (∀ op ∈ [Op.addTx txA10, Op.addTx txB10, Op.poll [(1, 1)]], WfOp op) ∧
    execOps 6 (initDG p10C) [.addTx txA10, .addTx txB10, .poll [(1, 1)]] = some sl10 ∧
    statusOf sl10 1 = .accepted ∧
    statusOf sl10 2 = .rejected ∧
    2 ∈ (alGet sl10.utxos 102).getD [] ∧
    lookupNode sl10 2 = none ∧
    add sl10 txC10 = none := by
  refine ⟨by decide, c10_exec, rfl, rfl, by decide, rfl, rfl⟩

/-- C1 is violated by the code: accepting tx 1 purges the UTXO index
entries of its inputs, so a later `Add` of tx 2 spending the same
UTXO 101 detects no conflict, and a poll then accepts tx 2 as well —
two transactions sharing an input both reach the Accepted status. -/
theorem conflicting_both_accepted :
    (∀ op ∈ [Op.addTx txA10, Op.poll [(1, 1)], Op.addTx txD1, Op.poll [(2, 1)]], WfOp op) ∧
    execOps 6 (initDG p10C) [.addTx txA10, .poll [(1, 1)], .addTx txD1, .poll [(2, 1)]] =
      some tl1 ∧
    101 ∈ txA10.inputs ∧ 101 ∈ txD1.inputs ∧ txA10.id ≠ txD1.id ∧
    statusOf tl1 1 = .accepted ∧ statusOf tl1 2 = .accepted := by
  refine ⟨by decide, c1_exec, by decide, by decide, by decide, rfl, rfl⟩

/-- C3 is violated by the code: when an acceptance cascade aborts on a
`Reject` callback error, the stale edge into node 12 survives, and a
later `Add` reusing id 13 installs a fresh node whose `outs` lacks 12 —
two mapped nodes with `13 ∈ n12.ins` but `12 ∉ n13.outs`. -/
theorem edge_symmetry_broken :
    (∀ op ∈ [Op.addTx txR8, Op.addTx txZ8, Op.addTx txF8, Op.poll [(13, 1)], Op.addTx txG3],
      WfOp op) ∧
    execOps 6 (initDG p10C)
      [.addTx txR8, .addTx txZ8, .addTx txF8, .poll [(13, 1)], .addTx txG3] = some sv3 ∧
    ∃ n12 n13, lookupNode sv3 12 = some n12 ∧ lookupNode sv3 13 = some n13 ∧
      13 ∈ n12.ins ∧ 12 ∉ n13.outs := by
  refine ⟨by decide, c3_exec, _, _, rfl, rfl, by decide, by decide⟩

end Snowstorm

namespace Snowstorm

theorem redirectEdge_errs (s : DG) (wId y : Nat) (s' : DG)
    (h : redirectEdge s wId y = some s') : s'.errs = s.errs := by
  unfold redirectEdge at h
  cases hc : lookupNode s y with
  | none => rw [hc] at h; cases h
  | some conflict =>
    rw [hc] at h
    simp only at h
    cases hw : heapGet s wId with
    | none => rw [hw] at h; cases h
    | some w =>
      rw [hw] at h
      simp only at h
      split at h
      · split at h <;> (cases h; rfl)
      · cases h; rfl

theorem redirectFold_errs (l : List Nat) (wId : Nat) : ∀ s s',
    l.foldl (fun acc y => acc.bind (fun s => redirectEdge s wId y)) (some s) = some s' →
    s'.errs = s.errs := by
  induction l with
  | nil =>
    intro s s' h
    cases h
    rfl
  | cons y t ih =>
    intro s s' h
    rw [List.foldl_cons] at h
    simp only [Option.some_bind] at h
    cases hre : redirectEdge s wId y with
    | none => rw [hre, redirectFold_none] at h; cases h
    | some s1 => rw [hre] at h; rw [ih s1 s' h, redirectEdge_errs s wId y s1 hre]

theorem redirectEdges_errs (s : DG) (wId : Nat) (s' : DG)
    (h : redirectEdges s wId = some s') : s'.errs = s.errs := by
  unfold redirectEdges at h
  cases hg : heapGet s wId with
  | none => rw [hg] at h; cases h
  | some w =>
    rw [hg] at h
    simp only at h
    exact redirectFold_errs w.outs wId s s' h

theorem deferAcceptance_errsMono (fuel : Nat) (s : DG) (fnId : Nat) (s' : DG)
    (h : deferAcceptance fuel s fnId = some s') : ErrsMono s s' := by
  unfold deferAcceptance at h
  cases hg : heapGet s fnId with
  | none => rw [hg] at h; cases h
  | some n =>
    rw [hg] at h
    simp only at h
    have hau := (errsMono_cascades fuel).2.2.2.2.2.2 _ _ _ h
    exact fun e he => hau e he

theorem pollStep_errsMono (fuel : Nat) (s : DG) (w : Nat) (r : DG × Bool)
    (h : pollStep fuel s w = some r) : ErrsMono s r.1 := by
  unfold pollStep at h
  cases hlk : lookupNode s w with
  | none =>
    rw [hlk] at h
    cases h
    exact errsMono_refl s
  | some n =>
    rw [hlk] at h
    simp only at h
    generalize hgen : (if n.lastVote + 1 ≠ s.currentVote then 0 else n.confidence) = c0 at h
    split at h
    · split at h
      · cases h
      · next sd hda =>
        have h1 : ErrsMono s sd := fun e he =>
          deferAcceptance_errsMono fuel _ w sd hda e he
        split at h
        · cases h; exact h1
        · split at h
          · cases h; exact h1
          · next n2 hg2 =>
            split at h
            · cases h; exact h1
            · split at h
              · cases h
              · next s5 hre =>
                cases h
                exact errsMono_trans h1 (errsMono_of_errs_eq (redirectEdges_errs _ _ _ hre))
    · split at h
      · cases h
        exact fun e he => he
      · next n2 hg2 =>
        split at h
        · cases h
          exact fun e he => he
        · split at h
          · cases h
          · next s5 hre =>
            cases h
            have h2 := redirectEdges_errs _ _ _ hre
            exact fun e he => h2.trans he

theorem pollLoop_errs (fuel : Nat) (l : List Nat) : ∀ s s' r,
    pollLoop fuel s l = some (s', r) → r = s'.errs ∧ ErrsMono s s' := by
  induction l with
  | nil =>
    intro s s' r h
    unfold pollLoop at h
    cases h
    exact ⟨rfl, errsMono_refl s⟩
  | cons w rest ih =>
    intro s s' r h
    unfold pollLoop at h
    split at h
    · cases h
    · next r0 hps =>
      have h0 := pollStep_errsMono fuel s w r0 hps
      split at h
      · cases h
        exact ⟨rfl, h0⟩
      · obtain ⟨h1, h2⟩ := ih _ _ _ h
        exact ⟨h1, errsMono_trans h0 h2⟩

theorem recordPoll_errs (fuel : Nat) (s : DG) (bag : List (Nat × Nat)) (s' : DG) (r : Option Nat)
    (h : recordPoll fuel s bag = some (s', r)) : r = s'.errs ∧ ErrsMono s s' := by
  unfold recordPoll at h
  obtain ⟨h1, h2⟩ := pollLoop_errs fuel _ _ _ _ h
  exact ⟨h1, fun e he => h2 e he⟩

theorem addConflict_foldl_none (txId : Nat) (l : List Nat) :
    l.foldl (addConflict txId) none = none := by
  induction l with
  | nil => rfl
  | cons c t ih => simpa [addConflict] using ih

theorem addConflict_foldl_errs (txId : Nat) (l : List Nat) : ∀ s s',
    l.foldl (addConflict txId) (some s) = some s' → s'.errs = s.errs := by
  induction l with
  | nil =>
    intro s s' h
    cases h
    rfl
  | cons c t ih =>
    intro s s' h
    rw [List.foldl_cons] at h
    cases hstep : addConflict txId (some s) c with
    | none => rw [hstep, addConflict_foldl_none] at h; cases h
    | some s1 =>
      rw [hstep] at h
      have h1 := ih _ _ h
      unfold addConflict at hstep
      simp only [Option.some_bind] at hstep
      split at hstep
      · cases hstep
      · cases hstep
        rw [h1]
        rfl

theorem addInput_foldl_none (txId : Nat) (l : List Nat) :
    l.foldl (addInput txId) none = none := by
  induction l with
  | nil => rfl
  | cons i t ih => simpa [addInput] using ih

theorem addInput_foldl_errs (txId : Nat) (l : List Nat) : ∀ p q,
    l.foldl (addInput txId) (some p) = some q → q.2.errs = p.2.errs := by
  induction l with
  | nil =>
    intro p q h
    cases h
    rfl
  | cons i t ih =>
    intro p q h
    rw [List.foldl_cons] at h
    cases hstep : addInput txId (some p) i with
    | none => rw [hstep, addInput_foldl_none] at h; cases h
    | some p1 =>
      rw [hstep] at h
      have h1 := ih _ _ h
      unfold addInput at hstep
      simp only [Option.some_bind] at hstep
      split at hstep
      · cases hstep
      · next s1 hfold =>
        cases hstep
        have h2 := addConflict_foldl_errs txId _ _ _ hfold
        simp only at h1
        rw [h1, h2]

end Snowstorm

namespace Snowstorm

theorem add_errs (s : DG) (tx : Tx) (s' : DG) (r : Option Nat)
    (h : add s tx = some (s', r)) :
    s'.errs = s.errs ∧ (¬Issued s tx → tx.inputs ≠ [] → r = s.errs) := by
  unfold add at h
  by_cases hi : Issued s tx
  · rw [if_pos hi] at h
    cases h
    exact ⟨rfl, fun hni => absurd hi hni⟩
  · rw [if_neg hi] at h
    by_cases hin : tx.inputs = []
    · rw [if_pos hin] at h
      simp only at h
      unfold txAccept at h
      cases hae : tx.acceptErr with
      | some e =>
        rw [hae] at h
        simp only at h
        cases h
        exact ⟨rfl, fun _ hin' => absurd hin hin'⟩
      | none =>
        rw [hae] at h
        simp only at h
        cases h
        exact ⟨rfl, fun _ hin' => absurd hin hin'⟩
    · rw [if_neg hin] at h
      cases hfold : tx.inputs.foldl (addInput tx.id)
          (some ([], { s with events := s.events ++ [.issue tx.id] })) with
      | none => rw [hfold] at h; cases h
      | some p =>
        rw [hfold] at h
        simp only at h
        have hpe : p.2.errs = s.errs := addInput_foldl_errs tx.id tx.inputs _ _ hfold
        split at h <;>
          · cases h
            exact ⟨hpe, fun _ _ => hpe⟩

/-- C8 (amended): once a callback failure is stored in the accumulator it
is never drained; `RecordPoll` returns exactly the accumulated error (so
the stored error keeps being returned), and an `Add` that issues a new
node returns the accumulated error as well — but an `Add` of an
already-issued or input-free transaction does not consult the
accumulator, as the reachable state `sh8` (whose accumulator holds
error 7 while `Add` of the issued `txZ8` succeeds) demonstrates against
the original claim. -/
theorem error_accumulator_sticky :
    (∀ fuel s bag s' r, recordPoll fuel s bag = some (s', r) →
      r = s'.errs ∧ ∀ e, s.errs = some e → s'.errs = some e) ∧
    (∀ s tx s' r, add s tx = some (s', r) →
      s'.errs = s.errs ∧ (¬Issued s tx → tx.inputs ≠ [] → r = s.errs)) ∧
    sh8.errs = some 7 ∧ add sh8 txZ8 = some (sh8, none) := by
  refine ⟨?_, ?_, rfl, rfl⟩
  · intro fuel s bag s' r h
    obtain ⟨h1, h2⟩ := recordPoll_errs fuel s bag s' r h
    exact ⟨h1, h2⟩
  · exact add_errs

/-- Witness for C8 at concrete inputs: a poll and a node-inserting `Add`
on the errored state `sh8` both return the stored error 7. -/
theorem error_accumulator_sticky_witness :
    ((some 7 : Option Nat) = ({ sh8 with currentVote := sh8.currentVote + 1 } : DG).errs ∧
      ({ sh8 with currentVote := sh8.currentVote + 1 } : DG).errs = some 7) ∧
    (sv3.errs = sh8.errs ∧ (some 7 : Option Nat) = sh8.errs) := by
  refine ⟨?_, ?_⟩
  · obtain ⟨h1, h2⟩ := error_accumulator_sticky.1 1 sh8 []
      { sh8 with currentVote := sh8.currentVote + 1 } (some 7) rfl
    exact ⟨h1, h2 7 rfl⟩
  · obtain ⟨h1, h2⟩ := error_accumulator_sticky.2.1 sh8 txG3 sv3 (some 7) c3_readd
    exact ⟨h1, h2 (by decide) (by decide)⟩

/-- The original C8 claim fails on the reachable state `sh8`: its
accumulator holds error 7, yet `Add` of the already-issued `txZ8`
returns success instead of the stored error. -/
theorem error_accumulator_counterexample :
    sh8.errs = some 7 ∧ add sh8 txZ8 = some (sh8, none) ∧ (none : Option Nat) ≠ some 7 :=
  ⟨rfl, rfl, by decide⟩

end Snowstorm

namespace Snowstorm

/-! ## The preferences invariant (C2) -/

/-- The preference set contains exactly the graph members whose `outs`
edge set is empty. -/
def DirInv (s : DG) : Prop :=
  (∀ k, k ∈ s.preferences → k ∈ s.mapIds) ∧
  (∀ k, k ∈ s.mapIds → ∃ n, alGet s.heap k = some n ∧ (k ∈ s.preferences ↔ n.outs = []))

theorem dirInv_of_frame {s s' : DG} (hm : s'.mapIds = s.mapIds) (hh : s'.heap = s.heap)
    (hp : s'.preferences = s.preferences) (h : DirInv s) : DirInv s' := by
  rw [DirInv, hm, hh, hp]
  exact h

/-- Removing an id from both the map and the preferences keeps the
invariant (the prelude of `reject` and of `directedAccepter.Update`). -/
theorem dirInv_remove_both {s s' : DG} (k : Nat)
    (hm : s'.mapIds = sRemove s.mapIds k) (hh : s'.heap = s.heap)
    (hp : s'.preferences = sRemove s.preferences k) (h : DirInv s) : DirInv s' := by
  obtain ⟨h1, h2⟩ := h
  constructor
  · intro j hj
    rw [hp, mem_sRemove] at hj
    rw [hm, mem_sRemove]
    exact ⟨h1 j hj.1, hj.2⟩
  · intro j hj
    rw [hm, mem_sRemove] at hj
    obtain ⟨n, hn, hiff⟩ := h2 j hj.1
    refine ⟨n, by rw [hh]; exact hn, ?_⟩
    rw [hp, mem_sRemove]
    constructor
    · intro hj2
      exact hiff.mp hj2.1
    · intro ho
      exact ⟨hiff.mpr ho, hj.2⟩

/-- Replacing the node of an id that is not in the map keeps the
invariant. -/
theorem dirInv_heapSet_notmem (s : DG) (k : Nat) (n' : DNode) (hk : k ∉ s.mapIds)
    (h : DirInv s) : DirInv (heapSet s k n') := by
  obtain ⟨h1, h2⟩ := h
  constructor
  · exact h1
  · intro j hj
    obtain ⟨n, hn, hiff⟩ := h2 j hj
    refine ⟨n, ?_, hiff⟩
    unfold heapSet
    simp only
    rw [alGet_alSet]
    rw [if_neg]
    · exact hn
    · intro hjk
      exact hk (hjk ▸ hj)

/-- Replacing a node without changing its `outs` set keeps the
invariant. -/
theorem dirInv_heapSet_same_outs (s : DG) (k : Nat) (n n' : DNode)
    (hg : alGet s.heap k = some n) (houts : n'.outs = n.outs)
    (h : DirInv s) : DirInv (heapSet s k n') := by
  obtain ⟨h1, h2⟩ := h
  constructor
  · exact h1
  · intro j hj
    by_cases hjk : j = k
    · subst hjk
      obtain ⟨n0, hn0, hiff⟩ := h2 j hj
      rw [hg] at hn0
      cases hn0
      refine ⟨n', ?_, ?_⟩
      · unfold heapSet
        simp only
        rw [alGet_alSet, if_pos rfl]
      · rw [houts]
        exact hiff
    · obtain ⟨n0, hn0, hiff⟩ := h2 j hj
      refine ⟨n0, ?_, hiff⟩
      unfold heapSet
      simp only
      rw [alGet_alSet, if_neg hjk]
      exact hn0

theorem sAdd_ne_nil {l : List Nat} {x : Nat} : sAdd l x ≠ [] := by
  intro h
  exact absurd (h ▸ sAdd_self) (List.not_mem_nil x)

theorem sRemove_nil_of_nil {x : Nat} : sRemove ([] : List Nat) x = [] := rfl

theorem dirInv_removeConflictStep (k : Nat) (s : DG) (nb : Nat) (h : DirInv s) :
    DirInv (removeConflictStep k s nb) := by
  unfold removeConflictStep
  cases hlk : lookupNode s nb with
  | none => exact h
  | some nn =>
    simp only
    have hnbm : nb ∈ s.mapIds := by
      unfold lookupNode at hlk
      split at hlk
      · assumption
      · cases hlk
    have hnbg : alGet s.heap nb = some nn := heapGet_of_lookupNode hlk
    obtain ⟨h1, h2⟩ := h
    split
    · next hout =>
      constructor
      · intro j hj
        rw [mem_sAdd] at hj
        simp only [heapSet]
        rcases hj with hj | rfl
        · exact h1 j hj
        · exact hnbm
      · intro j hj
        simp only [heapSet] at hj ⊢
        by_cases hjnb : j = nb
        · subst hjnb
          refine ⟨_, by rw [alGet_alSet, if_pos rfl], ?_⟩
          exact ⟨fun _ => hout, fun _ => sAdd_self⟩
        · obtain ⟨n0, hn0, hiff⟩ := h2 j hj
          refine ⟨n0, by rw [alGet_alSet, if_neg hjnb]; exact hn0, ?_⟩
          rw [mem_sAdd]
          constructor
          · rintro (hjp | rfl)
            · exact hiff.mp hjp
            · exact absurd rfl hjnb
          · intro ho
            exact Or.inl (hiff.mpr ho)
    · next hout =>
      constructor
      · intro j hj
        simp only [heapSet]
        exact h1 j hj
      · intro j hj
        simp only [heapSet] at hj ⊢
        by_cases hjnb : j = nb
        · subst hjnb
          refine ⟨_, by rw [alGet_alSet, if_pos rfl], ?_⟩
          constructor
          · intro hjp
            obtain ⟨n0, hn0, hiff⟩ := h2 j hj
            rw [hnbg] at hn0
            cases hn0
            have : nn.outs = [] := hiff.mp hjp
            exact absurd (by rw [this]; rfl) hout
          · intro ho
            exact absurd ho hout
        · obtain ⟨n0, hn0, hiff⟩ := h2 j hj
          exact ⟨n0, by rw [alGet_alSet, if_neg hjnb]; exact hn0, hiff⟩

theorem dirInv_removeConflict (nbs : List Nat) (s : DG) (k : Nat) (h : DirInv s) :
    DirInv (removeConflict s k nbs) := by
  induction nbs generalizing s with
  | nil => exact h
  | cons a t ih =>
    rw [removeConflict_cons]
    exact ih _ (dirInv_removeConflictStep k s a h)

end Snowstorm

namespace Snowstorm

/-- Once a heap node's `accepted` flag is set it stays set. -/
def AccMono (s s' : DG) : Prop :=
  ∀ k n, heapGet s k = some n → n.accepted = true →
    ∃ n', heapGet s' k = some n' ∧ n'.accepted = true

theorem accMono_refl (s : DG) : AccMono s s := fun _ n h ha => ⟨n, h, ha⟩

theorem accMono_trans {s1 s2 s3 : DG} (h1 : AccMono s1 s2) (h2 : AccMono s2 s3) :
    AccMono s1 s3 := by
  intro k n h ha
  obtain ⟨n', h', ha'⟩ := h1 k n h ha
  exact h2 k n' h' ha'

theorem accMono_of_heap_eq {s s' : DG} (h : s'.heap = s.heap) : AccMono s s' := by
  intro k n hk ha
  refine ⟨n, ?_, ha⟩
  unfold heapGet at hk ⊢
  rw [h]
  exact hk

theorem accMono_heapSet (s : DG) (k : Nat) (n1 : DNode)
    (h : ∀ n0, alGet s.heap k = some n0 → n0.accepted = true → n1.accepted = true) :
    AccMono s (heapSet s k n1) := by
  intro j n hj ha
  unfold heapGet at hj ⊢
  unfold heapSet
  simp only
  rw [alGet_alSet]
  by_cases hjk : j = k
  · subst hjk
    rw [if_pos rfl]
    exact ⟨n1, rfl, h n hj ha⟩
  · rw [if_neg hjk]
    exact ⟨n, hj, ha⟩

theorem accMono_removeConflictStep (k : Nat) (s : DG) (nb : Nat) :
    AccMono s (removeConflictStep k s nb) := by
  unfold removeConflictStep
  cases hlk : lookupNode s nb with
  | none => exact accMono_refl s
  | some nn =>
    simp only
    have hg := heapGet_of_lookupNode hlk
    unfold heapGet at hg
    split
    · intro j n hj ha
      exact accMono_heapSet s nb { nn with
        ins := sRemove nn.ins k, outs := sRemove nn.outs k }
        (fun n0 h0 ha0 => by rw [hg] at h0; cases h0; exact ha0) j n hj ha
    · exact accMono_heapSet s nb _
        (fun n0 h0 ha0 => by rw [hg] at h0; cases h0; exact ha0)

theorem accMono_removeConflict (nbs : List Nat) (s : DG) (k : Nat) :
    AccMono s (removeConflict s k nbs) := by
  induction nbs generalizing s with
  | nil => exact accMono_refl s
  | cons a t ih =>
    rw [removeConflict_cons]
    exact accMono_trans (accMono_removeConflictStep k s a) (ih _)

theorem accMono_cascades (fuel : Nat) :
    (∀ s k0 res, rejectOne fuel s k0 = some res → AccMono s res.1) ∧
    (∀ s l res, rejectList fuel s l = some res → AccMono s res.1) ∧
    (∀ s k0 s', blockerFulfillReject fuel s k0 = some s' → AccMono s s') ∧
    (∀ s rids s', goRejectors fuel s rids = some s' → AccMono s s') ∧
    (∀ s k0 s', blockerFulfillAccept fuel s k0 = some s' → AccMono s s') ∧
    (∀ s k0 aids s', goAccepters fuel s k0 aids = some s' → AccMono s s') ∧
    (∀ s aid s', acceptUpdate fuel s aid = some s' → AccMono s s') := by
  induction fuel with
  | zero =>
    refine ⟨?_, ?_, ?_, ?_, ?_, ?_, ?_⟩
    · intro s k0 res h; unfold rejectOne at h; cases h
    · intro s l res h; unfold rejectList at h; cases h
    · intro s k0 s' h; unfold blockerFulfillReject at h; cases h
    · intro s rids s' h; unfold goRejectors at h; cases h
    · intro s k0 s' h; unfold blockerFulfillAccept at h; cases h
    · intro s k0 aids s' h; unfold goAccepters at h; cases h
    · intro s aid s' h; unfold acceptUpdate at h; cases h
  | succ fuel ih =>
    obtain ⟨ihRO, ihRL, ihBFR, ihGR, ihBFA, ihGA, ihAU⟩ := ih
    refine ⟨?_, ?_, ?_, ?_, ?_, ?_, ?_⟩
    · intro s k0 res h
      unfold rejectOne at h
      simp only at h
      cases hlk : lookupNode s k0 with
      | none => rw [hlk] at h; cases h
      | some n =>
        rw [hlk] at h
        simp only at h
        have hpre : AccMono s (removeConflict (removeConflict { s with
            mapIds := sRemove s.mapIds k0,
            preferences := sRemove s.preferences k0 } k0 n.ins) k0 n.outs) := by
          refine accMono_trans (accMono_of_heap_eq (rfl :
            ({ s with
              mapIds := sRemove s.mapIds k0,
              preferences := sRemove s.preferences k0 } : DG).heap = s.heap)) ?_
          exact accMono_trans
            (accMono_removeConflict n.ins { s with
              mapIds := sRemove s.mapIds k0,
              preferences := sRemove s.preferences k0 } k0)
            (accMono_removeConflict n.outs _ k0)
        split at h
        · next e heq =>
          cases h
          exact accMono_trans hpre (accMono_of_heap_eq (txReject_heap _ n.tx))
        · next heq =>
          split at h
          · cases h
          · next s7 hbfr =>
            cases h
            have h1 := ihBFR _ k0 _ hbfr
            refine accMono_trans hpre (accMono_trans (accMono_of_heap_eq ?_) h1)
            rw [blockerAbandonAccept_heap]
            exact txReject_heap _ n.tx
    · intro s l res h
      unfold rejectList at h
      cases l with
      | nil => cases h; exact accMono_refl s
      | cons k0 rest =>
        simp only at h
        cases hro : rejectOne fuel s k0 with
        | none => rw [hro] at h; cases h
        | some r =>
          rw [hro] at h
          simp only at h
          cases hr2 : r.2 with
          | some e => rw [hr2] at h; cases h; exact ihRO _ _ r hro
          | none =>
            rw [hr2] at h
            exact accMono_trans (ihRO _ _ r hro) (ihRL _ _ _ h)
    · intro s k0 s' h
      unfold blockerFulfillReject at h
      simp only at h
      have h1 := ihGR _ _ s' h
      exact accMono_trans (accMono_of_heap_eq rfl) h1
    · intro s rids s' h
      unfold goRejectors at h
      cases rids with
      | nil => cases h; exact accMono_refl s
      | cons rid rest =>
        simp only at h
        cases hrj : alGet s.rejectors rid with
        | none => rw [hrj] at h; exact ihGR _ _ _ h
        | some rejected =>
          rw [hrj] at h
          simp only at h
          split at h
          · exact ihGR _ _ _ h
          · split at h
            · cases h
            · next r hrl =>
              have h1 := ihRL _ _ _ hrl
              have h2 := ihGR _ _ _ h
              refine accMono_trans (accMono_trans (accMono_of_heap_eq rfl) h1) ?_
              refine accMono_trans (accMono_of_heap_eq (errsAdd_heap _ _)) h2
    · intro s k0 s' h
      unfold blockerFulfillAccept at h
      simp only at h
      have h1 := ihGA _ k0 _ s' h
      exact accMono_trans (accMono_of_heap_eq rfl) h1
    · intro s k0 aids s' h
      unfold goAccepters at h
      cases aids with
      | nil => cases h; exact accMono_refl s
      | cons aid rest =>
        simp only at h
        cases hac : alGet s.accepters aid with
        | none => rw [hac] at h; exact ihGA _ _ _ _ h
        | some a =>
          rw [hac] at h
          simp only at h
          split at h
          · cases h
          · next s2 hau =>
            have h1 := ihAU _ _ _ hau
            have h2 := ihGA _ _ _ _ h
            exact accMono_trans (accMono_trans (accMono_of_heap_eq rfl) h1) h2
    · intro s aid s' h
      unfold acceptUpdate at h
      simp only at h
      cases hac : alGet s.accepters aid with
      | none => rw [hac] at h; cases h; exact accMono_refl s
      | some a =>
        rw [hac] at h
        simp only at h
        split at h
        · cases h; exact accMono_refl s
        · cases hhg : heapGet s aid with
          | none => rw [hhg] at h; cases h; exact accMono_refl s
          | some n =>
            rw [hhg] at h
            simp only at h
            split at h
            · cases h
            · next r1 hrl1 =>
              have h0 := ihRL _ _ _ hrl1
              have h1 : AccMono s r1.1 := accMono_trans (accMono_of_heap_eq rfl) h0
              split at h
              · next e heq1 =>
                cases h
                exact accMono_trans h1 (accMono_of_heap_eq (errsAdd_heap _ _))
              · next heq1 =>
                split at h
                · cases h
                · next r2 hrl2 =>
                  have h2 := ihRL _ _ _ hrl2
                  split at h
                  · next e heq2 =>
                    cases h
                    exact accMono_trans h1 (accMono_trans h2
                      (accMono_of_heap_eq (errsAdd_heap _ _)))
                  · next heq2 =>
                    split at h
                    · next e heq3 =>
                      cases h
                      refine accMono_trans h1 (accMono_trans h2 ?_)
                      exact accMono_trans (accMono_of_heap_eq (txAccept_heap r2.1 n.tx))
                        (accMono_of_heap_eq (errsAdd_heap _ _))
                    · next heq3 =>
                      cases hn2 : heapGet (txAccept r2.1 n.tx).1 aid with
                      | none =>
                        rw [hn2] at h
                        simp only at h
                        split at h
                        · cases h
                        · next s8 hbfa =>
                          cases h
                          have h4 := ihBFA _ aid _ hbfa
                          refine accMono_trans h1 (accMono_trans h2 ?_)
                          refine accMono_trans (accMono_of_heap_eq (txAccept_heap r2.1 n.tx)) ?_
                          refine accMono_trans (accMono_of_heap_eq rfl) (accMono_trans h4 ?_)
                          exact accMono_of_heap_eq (blockerAbandonReject_heap s8 aid)
                      | some n2 =>
                        rw [hn2] at h
                        simp only at h
                        split at h
                        · cases h
                        · next s8 hbfa =>
                          cases h
                          refine accMono_trans h1 (accMono_trans h2 ?_)
                          refine accMono_trans (accMono_of_heap_eq (txAccept_heap r2.1 n.tx)) ?_
                          refine accMono_trans
                            (accMono_heapSet _ aid { n2 with accepted := true }
                              (fun n0 h0 ha0 => rfl)) ?_
                          have h4 := ihBFA _ aid _ hbfa
                          refine accMono_trans (accMono_of_heap_eq rfl) (accMono_trans h4 ?_)
                          exact accMono_of_heap_eq (blockerAbandonReject_heap s8 aid)

end Snowstorm

namespace Snowstorm

theorem errsAdd_some_ne_none (s : DG) (e : Nat) : (errsAdd s (some e)).errs ≠ none := by
  unfold errsAdd
  cases hs : s.errs <;> simp [hs]

theorem alGet_alSet_self {α : Type} (l : List (Nat × α)) (k : Nat) (v : α) :
    alGet (alSet l k v) k = some v := by
  rw [alGet_alSet, if_pos rfl]

/-- `directedAccepter.Update` either does nothing, stores an error, or
commits: the node of the accepted tx ends with its `accepted` flag set. -/
theorem acceptUpdate_outcome (fuel : Nat) (s : DG) (aid : Nat) (s' : DG)
    (h : acceptUpdate fuel s aid = some s') :
    s' = s ∨ s'.errs ≠ none ∨ ∃ n2, heapGet s' aid = some n2 ∧ n2.accepted = true := by
  cases fuel with
  | zero => unfold acceptUpdate at h; cases h
  | succ fuel =>
    unfold acceptUpdate at h
    simp only at h
    cases hac : alGet s.accepters aid with
    | none => rw [hac] at h; cases h; exact Or.inl rfl
    | some a =>
      rw [hac] at h
      simp only at h
      split at h
      · cases h; exact Or.inl rfl
      · cases hhg : heapGet s aid with
        | none => rw [hhg] at h; cases h; exact Or.inl rfl
        | some n =>
          rw [hhg] at h
          simp only at h
          split at h
          · cases h
          · next r1 hrl1 =>
            split at h
            · next e heq1 =>
              cases h
              exact Or.inr (Or.inl (errsAdd_some_ne_none _ e))
            · next heq1 =>
              split at h
              · cases h
              · next r2 hrl2 =>
                split at h
                · next e heq2 =>
                  cases h
                  exact Or.inr (Or.inl (errsAdd_some_ne_none _ e))
                · next heq2 =>
                  split at h
                  · next e heq3 =>
                    cases h
                    exact Or.inr (Or.inl (errsAdd_some_ne_none _ e))
                  · next heq3 =>
                    cases hn2 : heapGet (txAccept r2.1 n.tx).1 aid with
                    | none =>
                      exfalso
                      have he1 := (heapEvol_cascades fuel).2.1 _ _ _ hrl1
                      have he2 := (heapEvol_cascades fuel).2.1 _ _ _ hrl2
                      obtain ⟨m1, hm1, -⟩ := heapEvol_extract he1 (hhg :
                        heapGet { s with
                          mapIds := sRemove s.mapIds aid,
                          utxos := n.tx.inputs.foldl (fun u i => alErase u i) s.utxos,
                          virtuous := sRemove s.virtuous aid,
                          preferences := sRemove s.preferences aid } aid = some n)
                      obtain ⟨m2, hm2, -⟩ := heapEvol_extract he2 hm1
                      have hm3 : heapGet (txAccept r2.1 n.tx).1 aid = some m2 := by
                        unfold heapGet at hm2 ⊢
                        rw [txAccept_heap]
                        exact hm2
                      rw [hn2] at hm3
                      cases hm3
                    | some n2 =>
                      rw [hn2] at h
                      simp only at h
                      split at h
                      · cases h
                      · next s8 hbfa =>
                        cases h
                        have h4 := (accMono_cascades fuel).2.2.2.2.1 _ aid _ hbfa
                        have hs7 : heapGet { heapSet (txAccept r2.1 n.tx).1 aid
                            { n2 with accepted := true } with
                            events := (heapSet (txAccept r2.1 n.tx).1 aid
                              { n2 with accepted := true }).events ++ [.accept aid] } aid =
                            some { n2 with accepted := true } := by
                          unfold heapGet heapSet
                          simp only
                          exact alGet_alSet_self _ aid _
                        obtain ⟨n', hn', ha'⟩ := h4 aid { n2 with accepted := true } hs7 rfl
                        refine Or.inr (Or.inr ⟨n', ?_, ha'⟩)
                        unfold heapGet at hn' ⊢
                        rw [blockerAbandonReject_heap]
                        exact hn'

end Snowstorm

namespace Snowstorm

theorem removeConflictStep_mapIds (k : Nat) (s : DG) (nb : Nat) :
    (removeConflictStep k s nb).mapIds = s.mapIds := by
  unfold removeConflictStep
  cases lookupNode s nb with
  | none => rfl
  | some nn =>
    simp only
    split <;> rfl

theorem removeConflict_mapIds (nbs : List Nat) (s : DG) (k : Nat) :
    (removeConflict s k nbs).mapIds = s.mapIds := by
  induction nbs generalizing s with
  | nil => rfl
  | cons a t ih => rw [removeConflict_cons, ih, removeConflictStep_mapIds]

theorem txReject_mapIds (s : DG) (t : Tx) : (txReject s t).1.mapIds = s.mapIds := by
  unfold txReject
  cases t.rejectErr <;> rfl

theorem txReject_prefs (s : DG) (t : Tx) : (txReject s t).1.preferences = s.preferences := by
  unfold txReject
  cases t.rejectErr <;> rfl

theorem txAccept_mapIds (s : DG) (t : Tx) : (txAccept s t).1.mapIds = s.mapIds := by
  unfold txAccept
  cases t.acceptErr <;> rfl

theorem txAccept_prefs (s : DG) (t : Tx) : (txAccept s t).1.preferences = s.preferences := by
  unfold txAccept
  cases t.acceptErr <;> rfl

theorem errsAdd_mapIds (s : DG) (e : Option Nat) : (errsAdd s e).mapIds = s.mapIds := by
  unfold errsAdd
  cases s.errs <;> cases e <;> rfl

theorem errsAdd_prefs (s : DG) (e : Option Nat) : (errsAdd s e).preferences = s.preferences := by
  unfold errsAdd
  cases s.errs <;> cases e <;> rfl

theorem abandonAccepter_mapIds (s : DG) (aid : Nat) :
    (abandonAccepter s aid).mapIds = s.mapIds := by
  unfold abandonAccepter
  cases alGet s.accepters aid <;> rfl

theorem abandonAccepter_prefs (s : DG) (aid : Nat) :
    (abandonAccepter s aid).preferences = s.preferences := by
  unfold abandonAccepter
  cases alGet s.accepters aid <;> rfl

theorem foldl_abandonAccepter_mapIds (l : List Nat) (s : DG) :
    (l.foldl abandonAccepter s).mapIds = s.mapIds := by
  induction l generalizing s with
  | nil => rfl
  | cons a t ih => rw [List.foldl_cons, ih, abandonAccepter_mapIds]

theorem foldl_abandonAccepter_prefs (l : List Nat) (s : DG) :
    (l.foldl abandonAccepter s).preferences = s.preferences := by
  induction l generalizing s with
  | nil => rfl
  | cons a t ih => rw [List.foldl_cons, ih, abandonAccepter_prefs]

theorem blockerAbandonAccept_mapIds (s : DG) (k : Nat) :
    (blockerAbandonAccept s k).mapIds = s.mapIds := by
  unfold blockerAbandonAccept
  rw [foldl_abandonAccepter_mapIds]

theorem blockerAbandonAccept_prefs (s : DG) (k : Nat) :
    (blockerAbandonAccept s k).preferences = s.preferences := by
  unfold blockerAbandonAccept
  rw [foldl_abandonAccepter_prefs]

end Snowstorm

namespace Snowstorm

/-- Through every cascade the preferences invariant is preserved and the
tx map only loses ids. -/
theorem dirInv_cascades (fuel : Nat) :
    (∀ s k0 res, rejectOne fuel s k0 = some res →
      (DirInv s → DirInv res.1) ∧ res.1.mapIds ⊆ s.mapIds) ∧
    (∀ s l res, rejectList fuel s l = some res →
      (DirInv s → DirInv res.1) ∧ res.1.mapIds ⊆ s.mapIds) ∧
    (∀ s k0 s', blockerFulfillReject fuel s k0 = some s' →
      (DirInv s → DirInv s') ∧ s'.mapIds ⊆ s.mapIds) ∧
    (∀ s rids s', goRejectors fuel s rids = some s' →
      (DirInv s → DirInv s') ∧ s'.mapIds ⊆ s.mapIds) ∧
    (∀ s k0 s', blockerFulfillAccept fuel s k0 = some s' →
      (DirInv s → DirInv s') ∧ s'.mapIds ⊆ s.mapIds) ∧
    (∀ s k0 aids s', goAccepters fuel s k0 aids = some s' →
      (DirInv s → DirInv s') ∧ s'.mapIds ⊆ s.mapIds) ∧
    (∀ s aid s', acceptUpdate fuel s aid = some s' →
      (DirInv s → DirInv s') ∧ s'.mapIds ⊆ s.mapIds) := by
  induction fuel with
  | zero =>
    refine ⟨?_, ?_, ?_, ?_, ?_, ?_, ?_⟩
    · intro s k0 res h; unfold rejectOne at h; cases h
    · intro s l res h; unfold rejectList at h; cases h
    · intro s k0 s' h; unfold blockerFulfillReject at h; cases h
    · intro s rids s' h; unfold goRejectors at h; cases h
    · intro s k0 s' h; unfold blockerFulfillAccept at h; cases h
    · intro s k0 aids s' h; unfold goAccepters at h; cases h
    · intro s aid s' h; unfold acceptUpdate at h; cases h
  | succ fuel ih =>
    obtain ⟨ihRO, ihRL, ihBFR, ihGR, ihBFA, ihGA, ihAU⟩ := ih
    refine ⟨?_, ?_, ?_, ?_, ?_, ?_, ?_⟩
    · intro s k0 res h
      unfold rejectOne at h
      simp only at h
      cases hlk : lookupNode s k0 with
      | none => rw [hlk] at h; cases h
      | some n =>
        rw [hlk] at h
        simp only at h
        have hinv2 : DirInv s → DirInv (removeConflict (removeConflict { s with
            mapIds := sRemove s.mapIds k0,
            preferences := sRemove s.preferences k0 } k0 n.ins) k0 n.outs) := by
          intro hinv
          refine dirInv_removeConflict n.outs _ k0 (dirInv_removeConflict n.ins _ k0 ?_)
          exact dirInv_remove_both k0 rfl rfl rfl hinv
        have hmap2 : (removeConflict (removeConflict { s with
            mapIds := sRemove s.mapIds k0,
            preferences := sRemove s.preferences k0 } k0 n.ins) k0 n.outs).mapIds =
            sRemove s.mapIds k0 := by
          rw [removeConflict_mapIds, removeConflict_mapIds]
        split at h
        · next e heq =>
          cases h
          constructor
          · intro hinv
            exact dirInv_of_frame (txReject_mapIds _ _) (txReject_heap _ _)
              (txReject_prefs _ _) (hinv2 hinv)
          · intro a ha
            rw [txReject_mapIds, hmap2] at ha
            exact sRemove_subset _ _ ha
        · next heq =>
          split at h
          · cases h
          · next s7 hbfr =>
            cases h
            obtain ⟨i7, sub7⟩ := ihBFR _ k0 _ hbfr
            constructor
            · intro hinv
              have j1 := dirInv_of_frame (txReject_mapIds _ n.tx) (txReject_heap _ n.tx)
                (txReject_prefs _ n.tx) (hinv2 hinv)
              refine i7 ?_
              exact dirInv_of_frame (blockerAbandonAccept_mapIds _ _)
                (blockerAbandonAccept_heap _ _) (blockerAbandonAccept_prefs _ _)
                (dirInv_of_frame rfl rfl rfl j1)
            · intro a ha
              have hx := sub7 ha
              rw [blockerAbandonAccept_mapIds] at hx
              simp only at hx
              rw [txReject_mapIds, hmap2] at hx
              exact sRemove_subset _ _ hx
    · intro s l res h
      unfold rejectList at h
      cases l with
      | nil =>
        cases h
        exact ⟨id, fun a ha => ha⟩
      | cons k0 rest =>
        simp only at h
        cases hro : rejectOne fuel s k0 with
        | none => rw [hro] at h; cases h
        | some r =>
          rw [hro] at h
          simp only at h
          obtain ⟨i0, sub0⟩ := ihRO _ _ r hro
          cases hr2 : r.2 with
          | some e =>
            rw [hr2] at h
            cases h
            exact ⟨i0, sub0⟩
          | none =>
            rw [hr2] at h
            obtain ⟨i1, sub1⟩ := ihRL _ _ _ h
            exact ⟨fun hinv => i1 (i0 hinv), fun a ha => sub0 (sub1 ha)⟩
    · intro s k0 s' h
      unfold blockerFulfillReject at h
      simp only at h
      obtain ⟨i1, sub1⟩ := ihGR _ _ s' h
      constructor
      · intro hinv
        exact i1 (dirInv_of_frame rfl rfl rfl hinv)
      · exact fun a ha => sub1 ha
    · intro s rids s' h
      unfold goRejectors at h
      cases rids with
      | nil =>
        cases h
        exact ⟨id, fun a ha => ha⟩
      | cons rid rest =>
        simp only at h
        cases hrj : alGet s.rejectors rid with
        | none => rw [hrj] at h; exact ihGR _ _ _ h
        | some rejected =>
          rw [hrj] at h
          simp only at h
          split at h
          · exact ihGR _ _ _ h
          · split at h
            · cases h
            · next r hrl =>
              obtain ⟨i1, sub1⟩ := ihRL _ _ _ hrl
              obtain ⟨i2, sub2⟩ := ihGR _ _ _ h
              constructor
              · intro hinv
                refine i2 ?_
                refine dirInv_of_frame (errsAdd_mapIds _ _) (errsAdd_heap _ _)
                  (errsAdd_prefs _ _) ?_
                exact i1 (dirInv_of_frame rfl rfl rfl hinv)
              · intro a ha
                have h2 := sub2 ha
                rw [errsAdd_mapIds] at h2
                exact sub1 h2
    · intro s k0 s' h
      unfold blockerFulfillAccept at h
      simp only at h
      obtain ⟨i1, sub1⟩ := ihGA _ k0 _ s' h
      constructor
      · intro hinv
        exact i1 (dirInv_of_frame rfl rfl rfl hinv)
      · exact fun a ha => sub1 ha
    · intro s k0 aids s' h
      unfold goAccepters at h
      cases aids with
      | nil =>
        cases h
        exact ⟨id, fun a ha => ha⟩
      | cons aid rest =>
        simp only at h
        cases hac : alGet s.accepters aid with
        | none => rw [hac] at h; exact ihGA _ _ _ _ h
        | some a =>
          rw [hac] at h
          simp only at h
          split at h
          · cases h
          · next s2 hau =>
            obtain ⟨i1, sub1⟩ := ihAU _ _ _ hau
            obtain ⟨i2, sub2⟩ := ihGA _ _ _ _ h
            constructor
            · intro hinv
              exact i2 (i1 (dirInv_of_frame rfl rfl rfl hinv))
            · exact fun x hx => sub1 (sub2 hx)
    · intro s aid s' h
      unfold acceptUpdate at h
      simp only at h
      cases hac : alGet s.accepters aid with
      | none => rw [hac] at h; cases h; exact ⟨id, fun a ha => ha⟩
      | some a =>
        rw [hac] at h
        simp only at h
        split at h
        · cases h; exact ⟨id, fun a ha => ha⟩
        · cases hhg : heapGet s aid with
          | none => rw [hhg] at h; cases h; exact ⟨id, fun a ha => ha⟩
          | some n =>
            rw [hhg] at h
            simp only at h
            split at h
            · cases h
            · next r1 hrl1 =>
              obtain ⟨i1, sub1⟩ := ihRL _ _ _ hrl1
              have ipre : DirInv s → DirInv r1.1 := fun hinv =>
                i1 (dirInv_remove_both aid rfl rfl rfl hinv)
              have spre : r1.1.mapIds ⊆ sRemove s.mapIds aid := fun x hx => sub1 hx
              split at h
              · next e heq1 =>
                cases h
                constructor
                · intro hinv
                  exact dirInv_of_frame (errsAdd_mapIds _ _) (errsAdd_heap _ _)
                    (errsAdd_prefs _ _) (ipre hinv)
                · intro x hx
                  rw [errsAdd_mapIds] at hx
                  exact sRemove_subset _ _ (spre hx)
              · next heq1 =>
                split at h
                · cases h
                · next r2 hrl2 =>
                  obtain ⟨i2, sub2⟩ := ihRL _ _ _ hrl2
                  have ipre2 : DirInv s → DirInv r2.1 := fun hinv => i2 (ipre hinv)
                  have spre2 : r2.1.mapIds ⊆ sRemove s.mapIds aid := fun x hx =>
                    spre (sub2 hx)
                  split at h
                  · next e heq2 =>
                    cases h
                    constructor
                    · intro hinv
                      exact dirInv_of_frame (errsAdd_mapIds _ _) (errsAdd_heap _ _)
                        (errsAdd_prefs _ _) (ipre2 hinv)
                    · intro x hx
                      rw [errsAdd_mapIds] at hx
                      exact sRemove_subset _ _ (spre2 hx)
                  · next heq2 =>
                    split at h
                    · next e heq3 =>
                      cases h
                      constructor
                      · intro hinv
                        refine dirInv_of_frame (errsAdd_mapIds _ _) (errsAdd_heap _ _)
                          (errsAdd_prefs _ _) ?_
                        exact dirInv_of_frame (txAccept_mapIds _ _) (txAccept_heap _ _)
                          (txAccept_prefs _ _) (ipre2 hinv)
                      · intro x hx
                        rw [errsAdd_mapIds, txAccept_mapIds] at hx
                        exact sRemove_subset _ _ (spre2 hx)
                    · next heq3 =>
                      have ipre3 : DirInv s → DirInv (txAccept r2.1 n.tx).1 := fun hinv =>
                        dirInv_of_frame (txAccept_mapIds _ _) (txAccept_heap _ _)
                          (txAccept_prefs _ _) (ipre2 hinv)
                      have spre3 : (txAccept r2.1 n.tx).1.mapIds ⊆ sRemove s.mapIds aid := by
                        rw [txAccept_mapIds]
                        exact spre2
                      cases hn2 : heapGet (txAccept r2.1 n.tx).1 aid with
                      | none =>
                        rw [hn2] at h
                        simp only at h
                        split at h
                        · cases h
                        · next s8 hbfa =>
                          cases h
                          obtain ⟨i4, sub4⟩ := ihBFA _ aid _ hbfa
                          constructor
                          · intro hinv
                            refine dirInv_of_frame ?_ (blockerAbandonReject_heap s8 aid) ?_ ?_
                            · rfl
                            · rfl
                            · exact i4 (dirInv_of_frame rfl rfl rfl (ipre3 hinv))
                          · intro x hx
                            have h5 := sub4 hx
                            exact sRemove_subset _ _ (spre3 h5)
                      | some n2 =>
                        rw [hn2] at h
                        simp only at h
                        split at h
                        · cases h
                        · next s8 hbfa =>
                          cases h
                          obtain ⟨i4, sub4⟩ := ihBFA _ aid _ hbfa
                          have haidnot : aid ∉ (txAccept r2.1 n.tx).1.mapIds := fun hx =>
                            sRemove_ne_self (spre3 hx)
                          constructor
                          · intro hinv
                            refine dirInv_of_frame ?_ (blockerAbandonReject_heap s8 aid) ?_ ?_
                            · rfl
                            · rfl
                            · refine i4 (dirInv_of_frame rfl rfl rfl ?_)
                              exact dirInv_heapSet_notmem _ aid _ haidnot (ipre3 hinv)
                          · intro x hx
                            have h5 := sub4 hx
                            exact sRemove_subset _ _ (spre3 h5)

end Snowstorm

namespace Snowstorm

theorem redirectEdge_mapIds (s : DG) (wId y : Nat) (s' : DG)
    (h : redirectEdge s wId y = some s') : s'.mapIds = s.mapIds := by
  unfold redirectEdge at h
  cases hc : lookupNode s y with
  | none => rw [hc] at h; cases h
  | some conflict =>
    rw [hc] at h
    simp only at h
    cases hw : heapGet s wId with
    | none => rw [hw] at h; cases h
    | some w =>
      rw [hw] at h
      simp only at h
      split at h
      · split at h <;> (cases h; rfl)
      · cases h; rfl

theorem dirInv_redirectEdge (s : DG) (wId y : Nat) (s' : DG)
    (h : redirectEdge s wId y = some s') (hw : wId ∈ s.mapIds)
    (hinv : DirInv s) : DirInv s' := by
  unfold redirectEdge at h
  cases hc : lookupNode s y with
  | none => rw [hc] at h; cases h
  | some conflict =>
    rw [hc] at h
    simp only at h
    cases hwg : heapGet s wId with
    | none => rw [hwg] at h; cases h
    | some w =>
      rw [hwg] at h
      simp only at h
      split at h
      · next hbias =>
        have hyg : alGet s.heap y = some conflict := heapGet_of_lookupNode hc
        have hwg' : alGet s.heap wId = some w := hwg
        have hwy : wId ≠ y := by
          intro hEq
          subst hEq
          rw [hyg] at hwg'
          cases hwg'
          exact Nat.lt_irrefl _ hbias
        obtain ⟨h1, h2⟩ := hinv
        split at h
        · next houts =>
          cases h
          constructor
          · intro j hj
            simp only [heapSet] at hj ⊢
            rw [mem_sAdd] at hj
            rcases hj with hj | rfl
            · rw [mem_sRemove] at hj
              exact h1 j hj.1
            · exact hw
          · intro j hj
            simp only [heapSet] at hj ⊢
            by_cases hjy : j = y
            · subst hjy
              refine ⟨{ conflict with
                confidence := 0, ins := sRemove conflict.ins wId,
                outs := sAdd conflict.outs wId }, ?_, ?_⟩
              · rw [alGet_alSet, if_neg (fun hE => hwy hE.symm), alGet_alSet, if_pos rfl]
              · constructor
                · intro hyp
                  rw [mem_sAdd] at hyp
                  rcases hyp with hyp | hyp
                  · exact absurd hyp sRemove_ne_self
                  · exact absurd hyp.symm hwy
                · intro ho
                  exact absurd ho sAdd_ne_nil
            · by_cases hjw : j = wId
              · subst hjw
                refine ⟨_, by rw [alGet_alSet, if_pos rfl], ?_⟩
                exact ⟨fun _ => houts, fun _ => sAdd_self⟩
              · obtain ⟨n0, hn0, hiff⟩ := h2 j hj
                refine ⟨n0, ?_, ?_⟩
                · rw [alGet_alSet, if_neg hjw, alGet_alSet, if_neg hjy]
                  exact hn0
                · rw [mem_sAdd, mem_sRemove]
                  constructor
                  · rintro (⟨hjp, -⟩ | rfl)
                    · exact hiff.mp hjp
                    · exact absurd rfl hjw
                  · intro ho
                    exact Or.inl ⟨hiff.mpr ho, hjy⟩
        · next houts =>
          cases h
          constructor
          · intro j hj
            simp only [heapSet] at hj ⊢
            rw [mem_sRemove] at hj
            exact h1 j hj.1
          · intro j hj
            simp only [heapSet] at hj ⊢
            by_cases hjy : j = y
            · subst hjy
              refine ⟨{ conflict with
                confidence := 0, ins := sRemove conflict.ins wId,
                outs := sAdd conflict.outs wId }, ?_, ?_⟩
              · rw [alGet_alSet, if_neg (fun hE => hwy hE.symm), alGet_alSet, if_pos rfl]
              · constructor
                · intro hyp
                  exact absurd hyp sRemove_ne_self
                · intro ho
                  exact absurd ho sAdd_ne_nil
            · by_cases hjw : j = wId
              · subst hjw
                refine ⟨_, by rw [alGet_alSet, if_pos rfl], ?_⟩
                constructor
                · intro hyp
                  rw [mem_sRemove] at hyp
                  obtain ⟨n0, hn0, hiff⟩ := h2 j hj
                  rw [hwg'] at hn0
                  cases hn0
                  have hwo : w.outs = [] := hiff.mp hyp.1
                  exact absurd (by rw [hwo]; rfl : sRemove w.outs y = []) houts
                · intro ho
                  exact absurd ho houts
              · obtain ⟨n0, hn0, hiff⟩ := h2 j hj
                refine ⟨n0, ?_, ?_⟩
                · rw [alGet_alSet, if_neg hjw, alGet_alSet, if_neg hjy]
                  exact hn0
                · rw [mem_sRemove]
                  exact ⟨fun hjp => hiff.mp hjp.1, fun ho => ⟨hiff.mpr ho, hjy⟩⟩
      · cases h
        exact hinv

theorem dirInv_redirectFold (l : List Nat) (wId : Nat) : ∀ s s',
    l.foldl (fun acc y => acc.bind (fun s => redirectEdge s wId y)) (some s) = some s' →
    s'.mapIds = s.mapIds ∧ (wId ∈ s.mapIds → DirInv s → DirInv s') := by
  induction l with
  | nil =>
    intro s s' h
    cases h
    exact ⟨rfl, fun _ => id⟩
  | cons y t ih =>
    intro s s' h
    rw [List.foldl_cons] at h
    simp only [Option.some_bind] at h
    cases hre : redirectEdge s wId y with
    | none => rw [hre, redirectFold_none] at h; cases h
    | some s1 =>
      rw [hre] at h
      obtain ⟨hm, hi⟩ := ih s1 s' h
      have hm1 := redirectEdge_mapIds s wId y s1 hre
      refine ⟨by rw [hm, hm1], ?_⟩
      intro hw hinv
      exact hi (hm1 ▸ hw) (dirInv_redirectEdge s wId y s1 hre hw hinv)

theorem dirInv_redirectEdges (s : DG) (wId : Nat) (s' : DG)
    (h : redirectEdges s wId = some s') :
    s'.mapIds = s.mapIds ∧ (wId ∈ s.mapIds → DirInv s → DirInv s') := by
  unfold redirectEdges at h
  cases hg : heapGet s wId with
  | none => rw [hg] at h; cases h
  | some w =>
    rw [hg] at h
    simp only at h
    exact dirInv_redirectFold w.outs wId s s' h

theorem dirInv_deferAcceptance (fuel : Nat) (s : DG) (fnId : Nat) (s' : DG)
    (h : deferAcceptance fuel s fnId = some s') :
    (DirInv s → DirInv s') ∧ s'.mapIds ⊆ s.mapIds := by
  unfold deferAcceptance at h
  cases hg : heapGet s fnId with
  | none => rw [hg] at h; cases h
  | some n =>
    rw [hg] at h
    simp only at h
    obtain ⟨i1, sub1⟩ := (dirInv_cascades fuel).2.2.2.2.2.2 _ _ _ h
    have hg' : alGet s.heap fnId = some n := hg
    constructor
    · intro hinv
      refine i1 ?_
      have j1 : DirInv (heapSet s fnId { n with pendingAccept := true }) :=
        dirInv_heapSet_same_outs s fnId n _ hg' rfl hinv
      exact dirInv_of_frame rfl rfl rfl j1
    · intro x hx
      exact sub1 hx

end Snowstorm

namespace Snowstorm

theorem deferAcceptance_outcome (fuel : Nat) (s : DG) (fnId : Nat) (sd : DG)
    (h : deferAcceptance fuel s fnId = some sd) :
    sd.mapIds = s.mapIds ∨ sd.errs ≠ none ∨
      ∃ n2, heapGet sd fnId = some n2 ∧ n2.accepted = true := by
  unfold deferAcceptance at h
  cases hg : heapGet s fnId with
  | none => rw [hg] at h; cases h
  | some n =>
    rw [hg] at h
    simp only at h
    rcases acceptUpdate_outcome fuel _ fnId sd h with h1 | h1 | h1
    · left
      rw [h1]
      exact rfl
    · right; left; exact h1
    · right; right; exact h1

theorem dirInv_pollStep (fuel : Nat) (s : DG) (w : Nat) (r : DG × Bool)
    (h : pollStep fuel s w = some r) :
    (DirInv s → DirInv r.1) ∧ r.1.mapIds ⊆ s.mapIds := by
  unfold pollStep at h
  cases hlk : lookupNode s w with
  | none =>
    rw [hlk] at h
    cases h
    exact ⟨id, fun x hx => hx⟩
  | some n =>
    have hwmem : w ∈ s.mapIds := by
      unfold lookupNode at hlk
      split at hlk
      · assumption
      · cases hlk
    have hg' : alGet s.heap w = some n := heapGet_of_lookupNode hlk
    rw [hlk] at h
    simp only at h
    generalize hgen : (if n.lastVote + 1 ≠ s.currentVote then 0 else n.confidence) = c0 at h
    split at h
    · split at h
      · cases h
      · next sd hda =>
        obtain ⟨id1, sub1⟩ := dirInv_deferAcceptance fuel _ w sd hda
        have hins : DirInv s → DirInv sd := fun hinv =>
          id1 (dirInv_heapSet_same_outs s w n _ hg' rfl hinv)
        have hsubs : sd.mapIds ⊆ s.mapIds := fun x hx => sub1 hx
        split at h
        · cases h
          exact ⟨hins, hsubs⟩
        · next herrs =>
          split at h
          · cases h
            exact ⟨hins, hsubs⟩
          · next n2 hg2 =>
            split at h
            · cases h
              exact ⟨hins, hsubs⟩
            · next hacc2 =>
              split at h
              · cases h
              · next s5 hre =>
                cases h
                have hw2 : w ∈ sd.mapIds := by
                  rcases deferAcceptance_outcome fuel _ w sd hda with h1 | h1 | h1
                  · rw [h1]
                    exact hwmem
                  · exact absurd h1 herrs
                  · obtain ⟨n2', hg2', ha2'⟩ := h1
                    rw [hg2] at hg2'
                    cases hg2'
                    exact absurd ha2' hacc2
                obtain ⟨hmeq, himpl⟩ := dirInv_redirectEdges sd w s5 hre
                constructor
                · intro hinv
                  exact himpl hw2 (hins hinv)
                · intro x hx
                  rw [hmeq] at hx
                  exact hsubs hx
    · split at h
      · cases h
        exact ⟨fun hinv => dirInv_heapSet_same_outs s w n _ hg' rfl hinv, fun x hx => hx⟩
      · next n2 hg2 =>
        split at h
        · cases h
          exact ⟨fun hinv => dirInv_heapSet_same_outs s w n _ hg' rfl hinv, fun x hx => hx⟩
        · split at h
          · cases h
          · next s5 hre =>
            cases h
            obtain ⟨hmeq, himpl⟩ := dirInv_redirectEdges _ w s5 hre
            constructor
            · intro hinv
              exact himpl hwmem (dirInv_heapSet_same_outs s w n _ hg' rfl hinv)
            · intro x hx
              rw [hmeq] at hx
              exact hx

theorem dirInv_pollLoop (fuel : Nat) (l : List Nat) : ∀ s res,
    pollLoop fuel s l = some res → DirInv s → DirInv res.1 := by
  induction l with
  | nil =>
    intro s res h hinv
    unfold pollLoop at h
    cases h
    exact hinv
  | cons w rest ih =>
    intro s res h hinv
    unfold pollLoop at h
    split at h
    · cases h
    · next r0 hps =>
      obtain ⟨hi, -⟩ := dirInv_pollStep fuel s w r0 hps
      split at h
      · cases h
        exact hi hinv
      · exact ih _ _ h (hi hinv)

theorem dirInv_recordPoll (fuel : Nat) (s : DG) (bag : List (Nat × Nat)) (res : DG × Option Nat)
    (h : recordPoll fuel s bag = some res) (hinv : DirInv s) : DirInv res.1 := by
  unfold recordPoll at h
  refine dirInv_pollLoop fuel _ _ _ h ?_
  exact dirInv_of_frame rfl rfl rfl hinv

end Snowstorm

namespace Snowstorm

theorem dirInv_addConflict_fold (txId : Nat) (l : List Nat) : ∀ s s',
    l.foldl (addConflict txId) (some s) = some s' →
    (DirInv s → DirInv s') ∧ s'.mapIds = s.mapIds := by
  induction l with
  | nil =>
    intro s s' h
    cases h
    exact ⟨id, rfl⟩
  | cons c t ih =>
    intro s s' h
    rw [List.foldl_cons] at h
    cases hstep : addConflict txId (some s) c with
    | none => rw [hstep, addConflict_foldl_none] at h; cases h
    | some s1 =>
      rw [hstep] at h
      obtain ⟨i1, m1⟩ := ih s1 s' h
      unfold addConflict at hstep
      simp only [Option.some_bind] at hstep
      split at hstep
      · cases hstep
      · next cnode hlkc =>
        cases hstep
        have hc' : alGet s.heap c = some cnode := heapGet_of_lookupNode hlkc
        constructor
        · intro hinv
          refine i1 ?_
          refine dirInv_heapSet_same_outs _ c cnode _ hc' rfl ?_
          exact dirInv_of_frame rfl rfl rfl hinv
        · rw [m1]
          exact rfl

theorem dirInv_addInput_fold (txId : Nat) (l : List Nat) : ∀ p q,
    l.foldl (addInput txId) (some p) = some q →
    (DirInv p.2 → DirInv q.2) ∧ q.2.mapIds = p.2.mapIds := by
  induction l with
  | nil =>
    intro p q h
    cases h
    exact ⟨id, rfl⟩
  | cons i t ih =>
    intro p q h
    rw [List.foldl_cons] at h
    cases hstep : addInput txId (some p) i with
    | none => rw [hstep, addInput_foldl_none] at h; cases h
    | some p1 =>
      rw [hstep] at h
      obtain ⟨i1, m1⟩ := ih p1 q h
      unfold addInput at hstep
      simp only [Option.some_bind] at hstep
      split at hstep
      · cases hstep
      · next s1 hfold =>
        cases hstep
        obtain ⟨ic, mc⟩ := dirInv_addConflict_fold txId _ _ _ hfold
        constructor
        · intro hinv
          refine i1 ?_
          exact dirInv_of_frame rfl rfl rfl (ic hinv)
        · rw [m1]
          exact mc

end Snowstorm

namespace Snowstorm

theorem dirInv_add (s : DG) (tx : Tx) (s' : DG) (r : Option Nat)
    (h : add s tx = some (s', r)) (hinv : DirInv s) : DirInv s' := by
  unfold add at h
  by_cases hi : Issued s tx
  · rw [if_pos hi] at h
    cases h
    exact hinv
  · rw [if_neg hi] at h
    have hni : tx.id ∉ s.mapIds := fun hm => hi (Or.inr hm)
    by_cases hin : tx.inputs = []
    · rw [if_pos hin] at h
      simp only at h
      unfold txAccept at h
      cases hae : tx.acceptErr with
      | some e =>
        rw [hae] at h
        simp only at h
        cases h
        exact dirInv_of_frame rfl rfl rfl hinv
      | none =>
        rw [hae] at h
        simp only at h
        cases h
        exact dirInv_of_frame rfl rfl rfl hinv
    · rw [if_neg hin] at h
      cases hfold : tx.inputs.foldl (addInput tx.id)
          (some ([], { s with events := s.events ++ [.issue tx.id] })) with
      | none => rw [hfold] at h; cases h
      | some p =>
        rw [hfold] at h
        simp only at h
        obtain ⟨ip, mp2⟩ := dirInv_addInput_fold tx.id tx.inputs _ _ hfold
        have hinv0 : DirInv p.2 := ip (dirInv_of_frame rfl rfl rfl hinv)
        have hmids : p.2.mapIds = s.mapIds := by
          rw [mp2]
        have hnotp : tx.id ∉ p.2.mapIds := by
          rw [hmids]
          exact hni
        obtain ⟨h1, h2⟩ := hinv0
        split at h
        · next hrog =>
          cases h
          constructor
          · intro j hj
            simp only [heapSet] at hj ⊢
            exact mem_sAdd.mpr (Or.inl (h1 j hj))
          · intro j hj
            simp only [heapSet] at hj ⊢
            rw [mem_sAdd] at hj
            by_cases hjt : j = tx.id
            · subst hjt
              refine ⟨_, by rw [alGet_alSet, if_pos rfl], ?_⟩
              constructor
              · intro hjp
                exact absurd (h1 _ hjp) hnotp
              · intro ho
                simp only at ho
                exact absurd ho (of_decide_eq_true hrog)
            · rcases hj with hj | hj
              · obtain ⟨n0, hn0, hiff⟩ := h2 j hj
                refine ⟨n0, ?_, hiff⟩
                rw [alGet_alSet, if_neg hjt]
                exact hn0
              · exact absurd hj hjt
        · next hrog =>
          cases h
          have houts : p.1 = [] := by
            by_contra hne
            exact hrog (decide_eq_true hne)
          constructor
          · intro j hj
            simp only [heapSet] at hj ⊢
            rw [mem_sAdd] at hj
            rcases hj with hj | rfl
            · exact mem_sAdd.mpr (Or.inl (h1 j hj))
            · exact sAdd_self
          · intro j hj
            simp only [heapSet] at hj ⊢
            rw [mem_sAdd] at hj
            by_cases hjt : j = tx.id
            · subst hjt
              refine ⟨_, by rw [alGet_alSet, if_pos rfl], ?_⟩
              constructor
              · intro _
                exact houts
              · intro _
                exact sAdd_self
            · rcases hj with hj | hj
              · obtain ⟨n0, hn0, hiff⟩ := h2 j hj
                refine ⟨n0, ?_, ?_⟩
                · rw [alGet_alSet, if_neg hjt]
                  exact hn0
                · rw [mem_sAdd]
                  constructor
                  · rintro (hjp | rfl)
                    · exact hiff.mp hjp
                    · exact absurd rfl hjt
                  · intro ho
                    exact Or.inl (hiff.mpr ho)
              · exact absurd hj hjt

theorem dirInv_stepOp (fuel : Nat) (s : DG) (op : Op) (s' : DG)
    (h : stepOp fuel s op = some s') (hinv : DirInv s) : DirInv s' := by
  cases op with
  | addTx tx =>
    unfold stepOp at h
    simp only at h
    cases hadd : add s tx with
    | none => rw [hadd] at h; cases h
    | some p =>
      rw [hadd] at h
      obtain ⟨s1, r⟩ := p
      simp only [Option.map_some'] at h
      cases h
      exact dirInv_add s tx _ r hadd hinv
  | poll bag =>
    unfold stepOp at h
    simp only at h
    cases hrp : recordPoll fuel s bag with
    | none => rw [hrp] at h; cases h
    | some res =>
      rw [hrp] at h
      simp only [Option.map_some'] at h
      cases h
      exact dirInv_recordPoll fuel s bag res hrp hinv

theorem dirInv_execOps (fuel : Nat) (ops : List Op) : ∀ s s',
    execOps fuel s ops = some s' → DirInv s → DirInv s' := by
  induction ops with
  | nil =>
    intro s s' h hinv
    cases h
    exact hinv
  | cons op rest ih =>
    intro s s' h hinv
    unfold execOps at h
    split at h
    · cases h
    · next s1 hstep =>
      exact ih _ _ h (dirInv_stepOp fuel s op s1 hstep hinv)

theorem dirInv_initDG (p : Params) : DirInv (initDG p) := by
  constructor
  · intro k hk
    cases hk
  · intro k hk
    cases hk

/-- C2: in every reachable engine state, a transaction with a node in
the conflict graph is preferred exactly when its `outs` edge set is
empty. -/
theorem preferences_iff_no_outs (p : Params) (s : DG) (h : Reachable p s)
    (k : Nat) (n : DNode) (hn : lookupNode s k = some n) :
    k ∈ s.preferences ↔ n.outs = [] := by
  obtain ⟨fuel, ops, -, hexec⟩ := h
  have hinv := dirInv_execOps fuel ops _ _ hexec (dirInv_initDG p)
  have hkm : k ∈ s.mapIds := by
    unfold lookupNode at hn
    split at hn
    · assumption
    · cases hn
  obtain ⟨n0, hn0, hiff⟩ := hinv.2 k hkm
  have hg := heapGet_of_lookupNode hn
  unfold heapGet at hg
  rw [hg] at hn0
  cases hn0
  exact hiff

/-- Witness for C2 at a concrete reachable state. -/
theorem preferences_iff_no_outs_witness :
    Reachable p10C c10s1 ∧ lookupNode c10s1 1 = some { tx := txA10 } ∧
    (1 ∈ c10s1.preferences ↔ ({ tx := txA10 } : DNode).outs = []) := by
  have hre : Reachable p10C c10s1 := ⟨6, [.addTx txA10], by decide, by
    simp only [execOps, stepOp, c10_add1, Option.map_some']⟩
  exact ⟨hre, rfl, preferences_iff_no_outs p10C c10s1 hre 1 _ rfl⟩

end Snowstorm
